import Mathlib

/-!
# Verification of the Pixid invoice extraction-and-merge engine

Shallow embedding of `src/app.py` (namespace resolver `detect_namespace`,
time-card extractor `read_rav_content`, invoice merger and totals
reconciler `update_invoice`).

Modelling conventions, which follow the source:

* Python `decimal.Decimal` values are embedded as `Dec`, a pair of an
  integer coefficient and a non-negative decimal scale (`Decimal`'s
  exponent is `-s`).  This mirrors `Decimal`'s own representation:
  addition aligns to the larger scale, multiplication adds scales,
  division by `Decimal("100")` removes trailing zeros down to the ideal
  exponent, `quantize(Decimal("0.01"))` rounds to scale 2 with the default
  `ROUND_HALF_EVEN` rule, and `str` prints the coefficient at the stored
  scale.  The 28-significant-digit context limit and scientific-notation
  printing (exponent above 0 or adjusted exponent below -6) are outside
  the document values exercised here and are not modelled.  `Dec.val`
  gives the rational value, and value-level lemmas tie the operations to
  exact rational arithmetic.
* Numeric text is read with `parseDec`, embedding
  `Decimal(text.replace(",", "."))` on the grammar
  `[sign] digits [. digits]` that occurs in the documents, and written
  with `Dec.render`, embedding `str(value).replace(".", ",")`.
* XML trees are embedded structurally: only the elements the merge reads
  or writes are retained, in document order where the order is observable
  (sub-lines of the main line, `DataInformation` entries, insertion of the
  `TimeCardId` node).  An element that may be absent is an `Option`; the
  text of a present-but-empty element is `""`, matching the falsiness test
  the source applies uniformly (`if elem is not None and elem.text`).
* Exceptions (`raise ValueError` for a missing `Invoice` structure,
  `decimal.InvalidOperation` from an unparseable numeric text) are
  embedded as `Except AppError`; an error result carries no document,
  which models the fact that the Python function raises before any output
  text is produced.
* Python string comparison (used by `min`/`max` over period strings and by
  `sorted` over rubric codes) is code-point lexicographic; it is embedded
  by `strLt`/`strLe` below.
-/

/-- Characters `'0'`–`'9'`. -/
def isDigitCh (c : Char) : Bool := 48 ≤ c.toNat && c.toNat ≤ 57

/-- The digit character for `n % 10`. -/
def digitChar (n : ℕ) : Char := Char.ofNat (48 + n % 10)

/-- Decimal digit list of a natural number, most significant first;
fuel-based so that it reduces in the kernel. -/
def natDigitsAux : ℕ → ℕ → List Char
  | _, 0 => []
  | n, fuel + 1 =>
    if n < 10 then [digitChar n] else natDigitsAux (n / 10) fuel ++ [digitChar (n % 10)]

/-- Decimal digit list of a natural number, most significant first. -/
def natDigits (n : ℕ) : List Char := natDigitsAux n (n + 1)

/-- Value of a digit list (used after an `allDigits` check). -/
def digitsToNat (l : List Char) : ℕ :=
  l.foldl (fun a c => a * 10 + (c.toNat - 48)) 0

/-- All characters are decimal digits. -/
def allDigits (l : List Char) : Bool := l.all isDigitCh

/-- Strip one leading sign character, as the `Decimal` constructor and
`int` do. -/
def stripSign (l : List Char) : Bool × List Char :=
  match l with
  | [] => (false, [])
  | c :: t => if c = '-' then (true, t) else if c = '+' then (false, t) else (false, l)

/-- Left-pad a digit list with `'0'` to length `d`. -/
def padZeros (d : ℕ) (l : List Char) : List Char :=
  List.replicate (d - l.length) '0' ++ l

/-- Code-point lexicographic `<` on character lists: Python string `<`. -/
def listLtCh : List Char → List Char → Bool
  | [], [] => false
  | [], _ :: _ => true
  | _ :: _, [] => false
  | a :: as, b :: bs =>
    if a.toNat < b.toNat then true
    else if b.toNat < a.toNat then false
    else listLtCh as bs

/-- Python string `<` (code-point lexicographic). -/
def strLt (a b : String) : Bool := listLtCh a.data b.data

/-- Python string `<=`. -/
def strLe (a b : String) : Bool := !(strLt b a)

/-- Substring test, embedding Python's `pat in s` on the data lists. -/
def listContainsSub (p : List Char) : List Char → Bool
  | [] => p.isEmpty
  | c :: t => p.isPrefixOf (c :: t) || listContainsSub p t

/-- Python's `pat in s` on strings. -/
def containsSub (pat s : String) : Bool := listContainsSub pat.data s.data

/-- Python's `s.endswith(pat)`. -/
def endsWithStr (pat s : String) : Bool := pat.data.isSuffixOf s.data

/-- Embedding of Python `int(text)` on `[sign] digits`; `none` where `int`
raises `ValueError`. -/
def parseInt (str : String) : Option ℤ :=
  let sg := stripSign str.data
  if !sg.2.isEmpty && allDigits sg.2 then
    some ((if sg.1 then -1 else 1) * (digitsToNat sg.2 : ℤ))
  else none

/-- A `decimal.Decimal` value: integer coefficient `c` at decimal scale
`s`, representing `c / 10 ^ s` (the `Decimal` exponent is `-s`). -/
structure Dec where
  c : ℤ
  s : ℕ
deriving DecidableEq, Repr

/-- Rational value of a `Dec`. -/
def Dec.val (x : Dec) : ℚ := (x.c : ℚ) / (10 : ℚ) ^ x.s

/-- Embedding of `Decimal` addition: exact, at the larger scale (the smaller exponent),
as the unrounded `Decimal` `+` behaves on in-precision operands. -/
def Dec.add (x y : Dec) : Dec :=
  ⟨x.c * 10 ^ (max x.s y.s - x.s) + y.c * 10 ^ (max x.s y.s - y.s), max x.s y.s⟩

/-- Embedding of `Decimal` multiplication: exact, scales add. -/
def Dec.mul (x y : Dec) : Dec := ⟨x.c * y.c, x.s + y.s⟩

/-- Embedding of `value / Decimal("100")`: exact; the result scale is the smallest that
represents the quotient exactly, but no smaller than the ideal scale
(the dividend's scale), as `Decimal` division removes trailing zeros only
down to the ideal exponent. -/
def Dec.div100 (x : Dec) : Dec :=
  if x.c % 10 = 0 then
    if (x.c / 10) % 10 = 0 then ⟨x.c / 100, x.s⟩ else ⟨x.c / 10, x.s + 1⟩
  else ⟨x.c, x.s + 2⟩

/-- Embedding of `value.quantize(Decimal("0.01"))` under the default context rounding
`ROUND_HALF_EVEN`. -/
def Dec.quantize2 (x : Dec) : Dec :=
  if x.s ≤ 2 then ⟨x.c * 10 ^ (2 - x.s), 2⟩
  else
    let d : ℤ := 10 ^ (x.s - 2)
    let q := Int.fdiv x.c d
    let r := x.c - q * d
    ⟨if 2 * r < d then q else if d < 2 * r then q + 1 else if q % 2 = 0 then q else q + 1, 2⟩

/-- Python `==` between a `Decimal` and a number: value equality. -/
def Dec.veq (x y : Dec) : Bool := decide (x.c * 10 ^ y.s = y.c * 10 ^ x.s)

/-- Python `> 0` on a `Decimal`. -/
def Dec.isPos (x : Dec) : Bool := decide (0 < x.c)

/-- The literal `Decimal("0")` (also the `defaultdict(Decimal)` default). -/
def Dec.zero : Dec := ⟨0, 0⟩

/-- The literal `Decimal("0.00")`. -/
def Dec.zero2 : Dec := ⟨0, 2⟩

/-- The literal `Decimal("0.20")`. -/
def Dec.twenty2 : Dec := ⟨20, 2⟩

/-- Embedding of `str(value).replace(".", ",")`, as every numeric write in the source
performs: coefficient digits with the decimal comma placed at the stored
scale. -/
def Dec.render (x : Dec) : String :=
  if x.s = 0 then String.mk ((if x.c < 0 then ['-'] else []) ++ natDigits x.c.natAbs)
  else
    String.mk ((if x.c < 0 then ['-'] else []) ++
      natDigits (x.c.natAbs / 10 ^ x.s) ++ ',' :: padZeros x.s (natDigits (x.c.natAbs % 10 ^ x.s)))

/-- Embedding of `Decimal(text.replace(",", "."))` on the grammar
`[sign] digits [. digits]` (at least one digit); `none` where the Python
constructor raises `InvalidOperation`. -/
def parseDec (str : String) : Option Dec :=
  let cs := str.data.map (fun c => if c = ',' then '.' else c)
  let sg := stripSign cs
  let ip := sg.2.takeWhile (· ≠ '.')
  let fr : List Char :=
    match sg.2.dropWhile (· ≠ '.') with
    | [] => []
    | _ :: t => t
  if allDigits ip && allDigits fr && !(ip.isEmpty && fr.isEmpty) then
    let n : ℤ := (digitsToNat ip : ℤ) * 10 ^ fr.length + (digitsToNat fr : ℤ)
    some ⟨if sg.1 then -n else n, fr.length⟩
  else none

/-! ## Error model -/

/-- The two exception families the engine can raise: `structureError` is
the `ValueError("Structure Invoice non trouvée")` of `update_invoice`,
`decimalError` is `decimal.InvalidOperation` from parsing a numeric
text. -/
inductive AppError
  | structureError
  | decimalError
deriving DecidableEq, Repr

/-- Python truthiness of an element text: the source tests
`if elem is not None and elem.text`, so an absent element and a
present-but-empty text behave alike. -/
def otruthy : Option String → Bool
  | none => false
  | some s => !(s = "")

/-! ## Time-card extractor (`read_rav_content`) -/

/-- A `TimeInterval` element: texts of the code-bearing children tried in
order (`Id/IdValue`, `RateOrAmount/Id/IdValue`, `PayTypeCode`) and of the
`Duration` child (`findtext` default `"0"` is applied at use sites). -/
structure TimeInterval where
  idValue : Option String
  rateIdValue : Option String
  payTypeCode : Option String
  duration : Option String
deriving DecidableEq, Repr

/-- A `TimeCard` element: identifier candidates (`.//TimeCardId/IdValue`,
then `Id/IdValue`), the first `.//ReportedTime` descendant's period pair,
the record's own period pair, and its `.//TimeInterval` descendants in
document order. -/
structure TimeCard where
  tcIdNested : Option String
  tcIdDirect : Option String
  reportedTime : Option (Option String × Option String)
  ownStart : Option String
  ownEnd : Option String
  intervals : List TimeInterval
deriving DecidableEq, Repr

/-- Rubric-code resolution for a time interval: first truthy text among
`Id/IdValue`, `RateOrAmount/Id/IdValue`, `PayTypeCode`. -/
def resolveCode (ti : TimeInterval) : Option String :=
  if otruthy ti.idValue then ti.idValue
  else if otruthy ti.rateIdValue then ti.rateIdValue
  else ti.payTypeCode

/-- The `Duration` text with the `findtext` default `"0"`. -/
def durationOf (ti : TimeInterval) : String := ti.duration.getD "0"

/-- Embedding of `qty_dict[code] += v` on the insertion-ordered `defaultdict`. -/
def addAssoc : List (String × Dec) → String → Dec → List (String × Dec)
  | [], k, v => [(k, v)]
  | p :: t, k, v =>
    if p.1 = k then (p.1, p.2.add v) :: t else p :: addAssoc t k v

/-- Lookup in the quantity dictionary with the `defaultdict` default. -/
def lookupQ : List (String × Dec) → String → Dec
  | [], _ => Dec.zero
  | p :: t, k => if p.1 = k then p.2 else lookupQ t k

/-- Extractor state: the quantity dictionary, the collected periods, the
document-level time-card id, and the `details` audit records
(code, hours, record id). -/
structure RavAcc where
  qty : List (String × Dec)
  periods : List (String × String)
  tcid : String
  details : List (String × Dec × Option String)
deriving DecidableEq, Repr

/-- Processing of one `TimeInterval`: resolve a code; read `Duration` with
default `"0"`; when the code is truthy (present and non-empty, the
`if code and ...` guard) and the duration text is truthy and differs from
the literal `"0"`, parse it, divide by 100 and accumulate. -/
def stepInterval (tcId : Option String) (acc : RavAcc) (ti : TimeInterval) :
    Except AppError RavAcc :=
  match resolveCode ti with
  | none => .ok acc
  | some code =>
    if code = "" || durationOf ti = "" || durationOf ti = "0" then .ok acc
    else
      match parseDec (durationOf ti) with
      | none => .error .decimalError
      | some d =>
        .ok { acc with
              qty := addAssoc acc.qty code d.div100
              details := acc.details ++ [(code, d.div100, tcId)] }

/-- The record-level identifier the source keeps in `tc_id`. -/
def resolveTcId (tc : TimeCard) : Option String :=
  if otruthy tc.tcIdNested then tc.tcIdNested else tc.tcIdDirect

/-- Period collection for one record, threading the global `all_periods`
list: append the nested `ReportedTime` pair when both dates are truthy;
then, only when the global list is still empty, try the record's own
pair. -/
def periodStep (periods : List (String × String)) (tc : TimeCard) :
    List (String × String) :=
  let p1 :=
    match tc.reportedTime with
    | some (some a, some b) =>
      if a ≠ "" && b ≠ "" then periods ++ [(a, b)] else periods
    | _ => periods
  if p1.isEmpty then
    match tc.ownStart, tc.ownEnd with
    | some a, some b => if a ≠ "" && b ≠ "" then [(a, b)] else []
    | _, _ => []
  else p1

/-- Processing of one `TimeCard` record. -/
def stepTimeCard (acc : RavAcc) (tc : TimeCard) : Except AppError RavAcc :=
  let tcId := resolveTcId tc
  let tcid1 :=
    if otruthy tcId && acc.tcid = "" then tcId.getD "" else acc.tcid
  tc.intervals.foldlM (stepInterval tcId)
    { acc with tcid := tcid1, periods := periodStep acc.periods tc }

/-- Python `min` over a non-empty string list (first argument seeds). -/
def listMinStr (x : String) (l : List String) : String :=
  l.foldl (fun m s => if strLt s m then s else m) x

/-- Python `max` over a non-empty string list (first argument seeds). -/
def listMaxStr (x : String) (l : List String) : String :=
  l.foldl (fun m s => if strLt m s then s else m) x

/-- The extractor's result tuple. -/
structure RavResult where
  qty : List (String × Dec)
  periodStart : String
  periodEnd : String
  timecardId : String
  details : List (String × Dec × Option String)
deriving DecidableEq, Repr

/-- Embedding of `read_rav_content` from the parsed time-card records:
fold every record, then take the lexicographic min/max of the collected
period starts/ends (empty strings when none were collected). -/
def read_rav_content (tcs : List TimeCard) : Except AppError RavResult := do
  let acc ← tcs.foldlM stepTimeCard ⟨[], [], "", []⟩
  match acc.periods with
  | [] => .ok ⟨acc.qty, "", "", acc.tcid, acc.details⟩
  | p :: ps =>
    .ok ⟨acc.qty, listMinStr p.1 (ps.map Prod.fst), listMaxStr p.2 (ps.map Prod.snd),
         acc.tcid, acc.details⟩

/-- The periods the extractor collects, as a pure fold (the period
component of the record fold). -/
def collectPeriods (tcs : List TimeCard) : List (String × String) :=
  tcs.foldl periodStep []

/-! ## Namespace resolver (`detect_namespace`) -/

/-- The two HR-XML SIDES namespace revisions (`NS_2004` / `NS_2007`). -/
inductive NsVariant
  | rev2004
  | rev2007
deriving DecidableEq, Repr

/-- Embedding of `detect_namespace`, from the document's default namespace
URI (`root.nsmap.get(None, "")`) and the root element's tag. -/
def detect_namespace (defaultNs rootTag : String) : NsVariant :=
  if containsSub "2007-04-15" defaultNs then .rev2007
  else if containsSub "2004-08-02" defaultNs then .rev2004
  else if endsWithStr "StaffingEnvelope" rootTag then .rev2007
  else .rev2004

/-! ## Invoice document model -/

/-- A `DataInformation` entry (attributes `name` and `value`). -/
structure DataInfo where
  name : String
  value : String
deriving DecidableEq, Repr

/-- The invoice `Header`: the optional `UserArea` (which owns the optional
staffing-info block with its `DataInformation` descendants, in document
order) and the three optional total nodes' texts. -/
structure Header where
  userArea : Option (Option (List DataInfo))
  totalCharges : Option String
  totalTax : Option String
  totalAmount : Option String
deriving DecidableEq, Repr

/-- The `ReferenceInformation` block: its child tags in order and the
optional `TimeCardId/IdValue` text. -/
structure RefInfo where
  tags : List String
  timeCardId : Option String
deriving DecidableEq, Repr

/-- A billing sub-line of the main line: the texts of its line number,
description, reason code, first `.//Total` descendant, price block
(`Amount`, `FunctionalAmount`, `PerQuantity` texts) and item quantity
(`uom` attribute, text). -/
structure SubLine where
  lineNumber : Option String
  description : Option String
  reasonCode : Option String
  chargeTotal : Option String
  price : Option (String × String × String)
  itemQuantity : Option (String × String)
deriving DecidableEq, Repr

/-- The main line (`Line` with `LineNumber` `"1"`): its own `Description`
children's texts, its own charge `Total` (the first `.//Total` descendant
that precedes the sub-lines, when it has one), its own `ItemQuantity`
text, and its `Line` children (the sub-lines) in document order. -/
structure MainLine where
  descriptions : List (Option String)
  ownTotal : Option String
  itemQuantity : Option String
  sublines : List SubLine
deriving DecidableEq, Repr

/-- The `Invoice` node with the regions the merge touches. -/
structure Invoice where
  header : Option Header
  refInfo : Option RefInfo
  mainLine : Option MainLine
deriving DecidableEq, Repr

/-- A parsed invoice document: the namespace-qualified `.//ns:Invoice`
lookup result and the unqualified `.//Invoice` fallback. -/
structure Doc where
  invoiceNS : Option Invoice
  invoiceNoNS : Option Invoice
deriving DecidableEq, Repr

/-- The `Invoice` node `update_invoice` operates on: the qualified lookup
first, then the unqualified one. -/
def firstInvoice (d : Doc) : Option Invoice :=
  match d.invoiceNS with
  | some inv => some inv
  | none => d.invoiceNoNS

/-- The aggregate handed to `update_invoice` (`rav_data`). -/
structure Agg where
  qty : List (String × Dec)
  ps : String
  pe : String
  tcid : String
deriving DecidableEq, Repr

/-- The rubric catalog: `code → (label, hourly rate, line type)`. -/
abbrev Catalog : Type := List (String × String × Dec × String)

/-- Python `code in rubrics` / `rubrics[code]` on the catalog. -/
def lookupCat (cat : Catalog) (code : String) : Option (String × Dec × String) :=
  match cat.find? (fun e => e.1 = code) with
  | some e => some e.2
  | none => none

/-! ## Invoice merger (`update_invoice`) -/

/-- Step 1 of the merge, on a present `Header`: create `UserArea` and the
staffing-info block when absent, rewrite every `DataInformation` entry
named `PeriodStart`/`PeriodEnd` with the extractor's values, and append a
new entry for a name with no entry only when the value is truthy. -/
def updatePeriods (ps pe : String) (h : Header) : Header :=
  let di := (h.userArea.getD none).getD []
  let hasS := di.any (fun d => d.name = "PeriodStart")
  let hasE := di.any (fun d => d.name = "PeriodEnd")
  let di1 := di.map (fun d =>
    if d.name = "PeriodStart" then { d with value := ps }
    else if d.name = "PeriodEnd" then { d with value := pe } else d)
  let di2 := di1 ++ (if !hasS && ps ≠ "" then [⟨"PeriodStart", ps⟩] else [])
  let di3 := di2 ++ (if !hasE && pe ≠ "" then [⟨"PeriodEnd", pe⟩] else [])
  { h with userArea := some (some di3) }

/-- Insert at a position (list as element sequence). -/
def insertAtPos (n : ℕ) (x : String) (l : List String) : List String :=
  l.take n ++ x :: l.drop n

/-- One past the last child whose tag ends with
`StaffingSupplierOrgUnitId`, the insertion point for `TimeCardId`. -/
def lastOrgUnitPos (tags : List String) : Option ℕ :=
  tags.enum.foldl
    (fun p it => if endsWithStr "StaffingSupplierOrgUnitId" it.2 then some (it.1 + 1) else p)
    none

/-- Step 2 of the merge: when a reference-information block exists, the
extractor's id is truthy and no `TimeCardId` child exists, create one at
the computed position (or append). -/
def updateRefInfo (tcid : String) (r : Option RefInfo) : Option RefInfo :=
  match r with
  | none => none
  | some ri =>
    if tcid = "" then some ri
    else if ri.timeCardId.isSome then some ri
    else
      let tags1 :=
        match lastOrgUnitPos ri.tags with
        | some n => insertAtPos n "TimeCardId" ri.tags
        | none => ri.tags ++ ["TimeCardId"]
      some { tags := tags1, timeCardId := some tcid }

/-- Embedding of `existing_lines[desc] = subline` over the sub-lines with a truthy
description: Python dict semantics (re-assignment keeps the original
position and replaces the value). -/
def insertAssoc (m : List (String × SubLine)) (k : String) (v : SubLine) :
    List (String × SubLine) :=
  if m.any (fun p => p.1 = k) then
    m.map (fun p => if p.1 = k then (p.1, v) else p)
  else m ++ [(k, v)]

/-- One step of the `existing_lines` construction. -/
def buildStep (m : List (String × SubLine)) (sl : SubLine) : List (String × SubLine) :=
  match sl.description with
  | some d => if d ≠ "" then insertAssoc m d sl else m
  | none => m

/-- The `existing_lines` map, keyed by description text. -/
def buildExistingMap (subs : List SubLine) : List (String × SubLine) :=
  subs.foldl buildStep []

/-- Embedding of `libelle in existing_lines`. -/
def hasKey (m : List (String × SubLine)) (k : String) : Bool :=
  m.any (fun p => p.1 = k)

/-- The `existing_line_numbers` list (line-number texts in order). -/
def collectLineNumbers (subs : List SubLine) : List String :=
  subs.foldl (fun l sl => match sl.lineNumber with
    | some t => l ++ [t]
    | none => l) []

/-- The dotted suffix of a line number: `int(num.split('.')[-1])` when the
split has more than one part and the part parses, else skipped. -/
def dottedSuffix (num : String) : Option ℤ :=
  match (num.splitOn ".").reverse with
  | last :: _ :: _ => parseInt last
  | _ => none

/-- Embedding of `next_line_number`: one past the maximal parsed dotted suffix
(`max_num` starts at 0, so an empty list also yields 1). -/
def nextLineNumber (nums : List String) : ℤ :=
  (nums.foldl (fun m s =>
    match dottedSuffix s with
    | some k => if m < k then k else m
    | none => m) 0) + 1

/-- Read an optional numeric text as the totals loop does: absent or empty
contributes nothing, a present text is parsed (raising on junk). -/
def readOptNum (t : Option String) : Except AppError Dec :=
  match t with
  | none => .ok Dec.zero
  | some s =>
    if s = "" then .ok Dec.zero
    else
      match parseDec s with
      | some q => .ok q
      | none => .error .decimalError

/-- The pre-existing running totals: fold the `existing_lines` values,
adding each parsed item quantity and charge total. -/
def sumExisting : List (String × SubLine) → Except AppError (Dec × Dec)
  | [] => .ok (Dec.zero2, Dec.zero2)
  | p :: rest => do
    let q ← readOptNum (p.2.itemQuantity.map Prod.snd)
    let cq ← readOptNum p.2.chargeTotal
    let tl ← sumExisting rest
    .ok (q.add tl.1, cq.add tl.2)

/-- Embedding of `rubrics[code]` with the unknown-code fallback
(`"Rubrique {code}"`, rate 0, type `"BL"`). -/
def resolveRubric (cat : Catalog) (code : String) : String × Dec × String :=
  (lookupCat cat code).getD ("Rubrique " ++ code, Dec.zero2, "BL")

/-- The sub-line created for a new rubric. -/
def mkNewLine (n : ℤ) (lib typ : String) (taux h2 montant : Dec) : SubLine :=
  { lineNumber := some ("1." ++ toString n)
    description := some lib
    reasonCode := some typ
    chargeTotal := some montant.render
    price := if taux.isPos then some (taux.render, "12.46000", "1.90") else none
    itemQuantity := some (if containsSub "Heure" lib then "hur" else "pce", h2.render) }

/-- Loop state of the rubric reconciliation: next dotted number, created
sub-lines, running hour and amount totals. -/
structure LoopState where
  next : ℤ
  created : List SubLine
  th : Dec
  tm : Dec
deriving DecidableEq, Repr

/-- One iteration of `for code, heures in sorted(qty_dict.items())`:
skip falsy codes and zero hours; resolve the rubric; quantize hours and
compute the amount; create a sub-line only when no existing sub-line
carries the label. -/
def rubricStep (cat : Catalog) (em : List (String × SubLine))
    (st : LoopState) (it : String × Dec) : LoopState :=
  if it.1 = "" || it.2.veq Dec.zero then st
  else
    let h2 := it.2.quantize2
    let r := resolveRubric cat it.1
    let montant := (h2.mul r.2.1).quantize2
    if hasKey em r.1 then st
    else
      { next := st.next + 1
        created := st.created ++ [mkNewLine st.next r.1 r.2.2 r.2.1 h2 montant]
        th := st.th.add h2
        tm := st.tm.add montant }

/-- Insertion into a code-sorted association list (Python `sorted` on the
dict items; keys are unique in a dict, so the order is the key order). -/
def insertSorted (p : String × Dec) : List (String × Dec) → List (String × Dec)
  | [] => [p]
  | q :: t => if strLe p.1 q.1 then p :: q :: t else q :: insertSorted p t

/-- Embedding of `sorted(qty_dict.items())`. -/
def sortAssoc (l : List (String × Dec)) : List (String × Dec) :=
  l.foldr insertSorted []

/-- The rubric loop over the sorted aggregate, seeded with the
pre-existing totals. -/
def loopOut (agg : Agg) (cat : Catalog) (ml : MainLine) (th0 tm0 : Dec) : LoopState :=
  (sortAssoc agg.qty).foldl (rubricStep cat (buildExistingMap ml.sublines))
    ⟨nextLineNumber (collectLineNumbers ml.sublines), [], th0, tm0⟩

/-- Write the grand total into the first sub-line that carries a charge
total (the `main_line.find(".//Total")` target when the main line has no
charge total of its own). -/
def writeFirstTotal (v : String) : List SubLine → List SubLine
  | [] => []
  | sl :: rest =>
    if sl.chargeTotal.isSome then { sl with chargeTotal := some v } :: rest
    else sl :: writeFirstTotal v rest

/-- The `Prestations du …` description update on the main line's own
`Description` children. -/
def mainDescs (agg : Agg) (descs : List (Option String)) : List (Option String) :=
  descs.map (fun t =>
    match t with
    | some s =>
      if containsSub "Prestations du" s && agg.ps ≠ "" && agg.pe ≠ "" then
        some ("Prestations du " ++ agg.ps ++ " au " ++ agg.pe)
      else some s
    | none => none)

/-- Reassemble the main line after the rubric loop: append the created
sub-lines, then write the grand totals — into the line's own total when it
has one, else into the first sub-line total found, and into the main
`ItemQuantity` when present. -/
def assembleMainLine (agg : Agg) (ml : MainLine) (st : LoopState) : MainLine :=
  let ml2 : MainLine :=
    if ml.ownTotal.isSome then
      ⟨mainDescs agg ml.descriptions, some st.tm.render, ml.itemQuantity,
        ml.sublines ++ st.created⟩
    else
      ⟨mainDescs agg ml.descriptions, ml.ownTotal, ml.itemQuantity,
        writeFirstTotal st.tm.render (ml.sublines ++ st.created)⟩
  if ml2.itemQuantity.isSome then { ml2 with itemQuantity := some st.th.render } else ml2

/-- Step 3 of the merge on a present main line: update the
`Prestations du …` descriptions, reconcile the sub-lines against the
aggregate, then write the accumulated totals.  Also returns the
accumulated net amount for the header totals. -/
def processMainLine (agg : Agg) (cat : Catalog) (ml : MainLine) :
    Except AppError (MainLine × Dec) :=
  match sumExisting (buildExistingMap ml.sublines) with
  | .error e => .error e
  | .ok tl =>
    .ok (assembleMainLine agg ml (loopOut agg cat ml tl.1 tl.2),
         (loopOut agg cat ml tl.1 tl.2).tm)

/-- Step 4, the totals reconciler on the header: rewrite each total node
only when it already exists; tax is `net * Decimal("0.20")` quantized,
gross is `net + net * Decimal("0.20")` quantized. -/
def writeHeaderTotals (tm : Dec) (h : Header) : Header :=
  { h with
    totalCharges := if h.totalCharges.isSome then some tm.render else none
    totalTax :=
      if h.totalTax.isSome then some ((tm.mul Dec.twenty2).quantize2).render else none
    totalAmount :=
      if h.totalAmount.isSome then some ((tm.add (tm.mul Dec.twenty2)).quantize2).render
      else none }

/-- The merge body on the located `Invoice` node: period metadata, the
time-card reference, and — only when the main line exists — sub-line
reconciliation followed by the header totals. -/
def mergeBody (agg : Agg) (cat : Catalog) (inv : Invoice) : Except AppError Invoice :=
  match inv.mainLine with
  | none =>
    .ok { header := inv.header.map (updatePeriods agg.ps agg.pe),
          refInfo := updateRefInfo agg.tcid inv.refInfo, mainLine := none }
  | some ml =>
    match processMainLine agg cat ml with
    | .error e => .error e
    | .ok res =>
      .ok { header := (inv.header.map (updatePeriods agg.ps agg.pe)).map
              (writeHeaderTotals res.2),
            refInfo := updateRefInfo agg.tcid inv.refInfo, mainLine := some res.1 }

/-- Embedding of `update_invoice`: locate the `Invoice` node (qualified,
then unqualified lookup), raise `structureError` when both fail, and
otherwise run the merge body on it in place. -/
def update_invoice (doc : Doc) (agg : Agg) (cat : Catalog) : Except AppError Doc :=
  match doc.invoiceNS with
  | some inv => (mergeBody agg cat inv).map (fun i => { doc with invoiceNS := some i })
  | none =>
    match doc.invoiceNoNS with
    | some inv => (mergeBody agg cat inv).map (fun i => { doc with invoiceNoNS := some i })
    | none => .error .structureError

/-! ## Digit-string lemmas -/

theorem digitChar_toNat (n : ℕ) : (digitChar n).toNat = 48 + n % 10 := by
  have h : n % 10 < 10 := Nat.mod_lt _ (by omega)
  unfold digitChar
  set m := n % 10 with hm
  interval_cases m <;> rfl

theorem isDigitCh_digitChar (n : ℕ) : isDigitCh (digitChar n) = true := by
  have h : n % 10 < 10 := Nat.mod_lt _ (by omega)
  simp [isDigitCh, digitChar_toNat]
  omega

theorem digit_ne_of_toNat {c : Char} {d : Char} (h : isDigitCh c = true)
    (hd : d.toNat < 48 ∨ 57 < d.toNat) : c ≠ d := by
  intro he
  simp [isDigitCh] at h
  rw [he] at h
  omega

theorem isDigitCh_ne_dot {c : Char} (h : isDigitCh c = true) : c ≠ '.' :=
  digit_ne_of_toNat h (by left; decide)

theorem isDigitCh_ne_comma {c : Char} (h : isDigitCh c = true) : c ≠ ',' :=
  digit_ne_of_toNat h (by left; decide)

theorem isDigitCh_ne_minus {c : Char} (h : isDigitCh c = true) : c ≠ '-' :=
  digit_ne_of_toNat h (by left; decide)

theorem isDigitCh_ne_plus {c : Char} (h : isDigitCh c = true) : c ≠ '+' :=
  digit_ne_of_toNat h (by left; decide)

theorem digitsToNat_append_singleton (l : List Char) (c : Char) :
    digitsToNat (l ++ [c]) = digitsToNat l * 10 + (c.toNat - 48) := by
  simp [digitsToNat, List.foldl_append]

theorem natDigitsAux_spec (fuel : ℕ) : ∀ n, n < fuel →
    digitsToNat (natDigitsAux n fuel) = n ∧
    (∀ c ∈ natDigitsAux n fuel, isDigitCh c = true) ∧
    natDigitsAux n fuel ≠ [] := by
  induction fuel with
  | zero => intro n h; omega
  | succ fuel ih =>
    intro n h
    by_cases h10 : n < 10
    · refine ⟨?_, ?_, ?_⟩
      · simp [natDigitsAux, h10, digitsToNat, digitChar_toNat]
      · simp [natDigitsAux, h10]
        exact isDigitCh_digitChar n
      · simp [natDigitsAux, h10]
    · have hdiv : n / 10 < fuel := by
        have : n / 10 < n := Nat.div_lt_self (by omega) (by omega)
        omega
      have spec := ih (n / 10) hdiv
      refine ⟨?_, ?_, ?_⟩
      · simp only [natDigitsAux, if_neg h10]
        rw [digitsToNat_append_singleton, spec.1, digitChar_toNat]
        omega
      · simp only [natDigitsAux, if_neg h10]
        intro c hc
        rcases List.mem_append.mp hc with h1 | h1
        · exact spec.2.1 c h1
        · simp at h1
          rw [h1]
          exact isDigitCh_digitChar _
      · simp only [natDigitsAux, if_neg h10]
        intro he
        exact spec.2.2 (List.append_eq_nil.mp he).1

theorem digitsToNat_natDigits (n : ℕ) : digitsToNat (natDigits n) = n :=
  (natDigitsAux_spec (n + 1) n (by omega)).1

theorem natDigits_digits (n : ℕ) : ∀ c ∈ natDigits n, isDigitCh c = true :=
  (natDigitsAux_spec (n + 1) n (by omega)).2.1

theorem natDigits_ne_nil (n : ℕ) : natDigits n ≠ [] :=
  (natDigitsAux_spec (n + 1) n (by omega)).2.2

theorem natDigitsAux_length (fuel : ℕ) : ∀ n d, n < fuel → 1 ≤ d → n < 10 ^ d →
    (natDigitsAux n fuel).length ≤ d := by
  induction fuel with
  | zero => intro n d h; omega
  | succ fuel ih =>
    intro n d h hd hn
    by_cases h10 : n < 10
    · simp [natDigitsAux, h10]
      omega
    · have hd2 : 2 ≤ d := by
        by_contra hlt
        have hd1 : d = 1 := by omega
        rw [hd1] at hn
        simp at hn
        omega
      have hdiv : n / 10 < fuel := by
        have : n / 10 < n := Nat.div_lt_self (by omega) (by omega)
        omega
      have hdivpow : n / 10 < 10 ^ (d - 1) := by
        have hpow : 10 ^ d = 10 ^ (d - 1) * 10 := by
          rw [← pow_succ]
          congr 1
          omega
        rw [hpow] at hn
        exact Nat.div_lt_of_lt_mul (by omega)
      have := ih (n / 10) (d - 1) hdiv (by omega) hdivpow
      simp only [natDigitsAux, if_neg h10]
      simp
      omega

theorem natDigits_length_le (n d : ℕ) (hd : 1 ≤ d) (hn : n < 10 ^ d) :
    (natDigits n).length ≤ d :=
  natDigitsAux_length (n + 1) n d (by omega) hd hn

theorem digitsToNat_replicate_zero (m : ℕ) (l : List Char) :
    digitsToNat (List.replicate m '0' ++ l) = digitsToNat l := by
  induction m with
  | zero => simp
  | succ m ih =>
    have : List.replicate (m + 1) '0' ++ l = '0' :: (List.replicate m '0' ++ l) := by
      simp [List.replicate_succ]
    rw [this]
    simpa [digitsToNat] using ih

theorem digitsToNat_padZeros (d : ℕ) (l : List Char) :
    digitsToNat (padZeros d l) = digitsToNat l :=
  digitsToNat_replicate_zero _ _

theorem padZeros_digits (d : ℕ) (l : List Char) (h : ∀ c ∈ l, isDigitCh c = true) :
    ∀ c ∈ padZeros d l, isDigitCh c = true := by
  intro c hc
  rcases List.mem_append.mp hc with h1 | h1
  · have := List.eq_of_mem_replicate h1
    rw [this]
    rfl
  · exact h c h1

theorem padZeros_length (d : ℕ) (l : List Char) (h : l.length ≤ d) :
    (padZeros d l).length = d := by
  simp [padZeros]
  omega

theorem takeWhile_middle (p : Char → Bool) (l1 : List Char) (x : Char) (l2 : List Char)
    (h1 : ∀ c ∈ l1, p c = true) (hx : p x = false) :
    (l1 ++ x :: l2).takeWhile p = l1 ∧ (l1 ++ x :: l2).dropWhile p = x :: l2 := by
  induction l1 with
  | nil => simp [List.takeWhile, List.dropWhile, hx]
  | cons c t ih =>
    have hc : p c = true := h1 c (by simp)
    have iht := ih (fun a ha => h1 a (by simp [ha]))
    simp [List.takeWhile, List.dropWhile, hc, iht.1, iht.2]

theorem takeWhile_all (p : Char → Bool) (l : List Char) (h : ∀ c ∈ l, p c = true) :
    l.takeWhile p = l ∧ l.dropWhile p = [] := by
  induction l with
  | nil => simp
  | cons c t ih =>
    have hc : p c = true := h c (by simp)
    have iht := ih (fun a ha => h a (by simp [ha]))
    simp [List.takeWhile, List.dropWhile, hc, iht.1, iht.2]

theorem map_id_of_fix (f : Char → Char) (l : List Char) (h : ∀ c ∈ l, f c = c) :
    l.map f = l := by
  induction l with
  | nil => rfl
  | cons c t ih =>
    simp [h c (by simp), ih (fun a ha => h a (by simp [ha]))]


theorem map_sign_fix (neg : Bool) :
    (if neg then ['-'] else []).map (fun c => if c = ',' then '.' else c) =
      (if neg then ['-'] else []) := by
  cases neg <;> rfl

theorem map_digits_fix (l : List Char) (h : ∀ c ∈ l, isDigitCh c = true) :
    l.map (fun c => if c = ',' then '.' else c) = l :=
  map_id_of_fix _ _ (fun a ha => if_neg (isDigitCh_ne_comma (h a ha)))

theorem stripSign_sign (neg : Bool) (ip : List Char)
    (hip : ∀ c ∈ ip, isDigitCh c = true) (hne : ip ≠ []) (rest : List Char) :
    stripSign ((if neg then ['-'] else []) ++ (ip ++ rest)) = (neg, ip ++ rest) := by
  obtain ⟨c, t, hct⟩ := List.exists_cons_of_ne_nil hne
  have hc : isDigitCh c = true := hip c (by rw [hct]; simp)
  cases neg
  · simp only [Bool.false_eq_true, if_false, List.nil_append]
    rw [hct]
    simp only [List.cons_append, stripSign]
    rw [if_neg (isDigitCh_ne_minus hc), if_neg (isDigitCh_ne_plus hc)]
  · simp [stripSign]

theorem parseDec_mk_nofrac (neg : Bool) (ip : List Char)
    (hip : ∀ c ∈ ip, isDigitCh c = true) (hne : ip ≠ []) :
    parseDec (String.mk ((if neg then ['-'] else []) ++ ip)) =
      some ⟨if neg then -(digitsToNat ip : ℤ) else (digitsToNat ip : ℤ), 0⟩ := by
  have hmap : ((if neg then ['-'] else []) ++ ip).map (fun c => if c = ',' then '.' else c) =
      (if neg then ['-'] else []) ++ ip := by
    rw [List.map_append, map_sign_fix, map_digits_fix ip hip]
  have hstrip := stripSign_sign neg ip hip hne []
  rw [List.append_nil] at hstrip
  have htake := takeWhile_all (fun c => decide (c ≠ '.')) ip
    (fun a ha => by simp [isDigitCh_ne_dot (hip a ha)])
  have hall : allDigits ip = true := List.all_eq_true.mpr hip
  simp only [parseDec, String.mk, hmap, hstrip, htake.1, htake.2, hall]
  simp [allDigits, List.isEmpty_iff, hne]
  cases neg <;> simp [digitsToNat]

theorem parseDec_mk_frac (neg : Bool) (ip fr : List Char)
    (hip : ∀ c ∈ ip, isDigitCh c = true) (hfr : ∀ c ∈ fr, isDigitCh c = true)
    (hne : ip ≠ []) :
    parseDec (String.mk ((if neg then ['-'] else []) ++ (ip ++ ',' :: fr))) =
      some ⟨(fun n : ℤ => if neg then -n else n)
              ((digitsToNat ip : ℤ) * 10 ^ fr.length + (digitsToNat fr : ℤ)),
            fr.length⟩ := by
  have hmap : ((if neg then ['-'] else []) ++ (ip ++ ',' :: fr)).map
      (fun c => if c = ',' then '.' else c) =
      (if neg then ['-'] else []) ++ (ip ++ '.' :: fr) := by
    rw [List.map_append, map_sign_fix, List.map_append, map_digits_fix ip hip,
        List.map_cons, map_digits_fix fr hfr]
    rfl
  have hstrip' := stripSign_sign neg ip hip hne ('.' :: fr)
  have hmid := takeWhile_middle (fun c => decide (c ≠ '.')) ip '.' fr
    (fun a ha => by simp [isDigitCh_ne_dot (hip a ha)]) (by simp)
  have hallip : allDigits ip = true := List.all_eq_true.mpr hip
  have hallfr : allDigits fr = true := List.all_eq_true.mpr hfr
  simp only [parseDec, String.mk, hmap, hstrip', hmid.1, hmid.2, hallip, hallfr]
  simp [allDigits, List.isEmpty_iff, hne]

/-- Rendering then parsing round-trips every representable value. -/
theorem parseDec_render (x : Dec) : parseDec x.render = some x := by
  obtain ⟨c, s⟩ := x
  by_cases hs : s = 0
  · subst hs
    by_cases hc : c < 0
    · have hrend : Dec.render ⟨c, 0⟩ = String.mk (['-'] ++ natDigits c.natAbs) := by
        simp [Dec.render, hc]
      have h := parseDec_mk_nofrac true (natDigits c.natAbs)
        (natDigits_digits _) (natDigits_ne_nil _)
      simp only [if_pos trivial] at h
      rw [hrend, h, digitsToNat_natDigits]
      congr 2
      omega
    · have hrend : Dec.render ⟨c, 0⟩ = String.mk ([] ++ natDigits c.natAbs) := by
        simp [Dec.render, hc]
      have h := parseDec_mk_nofrac false (natDigits c.natAbs)
        (natDigits_digits _) (natDigits_ne_nil _)
      simp only [Bool.false_eq_true, if_false] at h
      rw [hrend, h, digitsToNat_natDigits]
      congr 2
      omega
  · have hmod : c.natAbs % 10 ^ s < 10 ^ s := Nat.mod_lt _ (by positivity)
    have hlen : (padZeros s (natDigits (c.natAbs % 10 ^ s))).length = s :=
      padZeros_length _ _ (natDigits_length_le _ _ (by omega) hmod)
    have hfrd : ∀ a ∈ padZeros s (natDigits (c.natAbs % 10 ^ s)), isDigitCh a = true :=
      padZeros_digits _ _ (natDigits_digits _)
    have hval : (digitsToNat (natDigits (c.natAbs / 10 ^ s)) : ℤ) *
        10 ^ (padZeros s (natDigits (c.natAbs % 10 ^ s))).length +
        (digitsToNat (padZeros s (natDigits (c.natAbs % 10 ^ s))) : ℤ) = (c.natAbs : ℤ) := by
      rw [hlen, digitsToNat_natDigits, digitsToNat_padZeros, digitsToNat_natDigits]
      have h10 := Nat.div_add_mod c.natAbs (10 ^ s)
      rw [Nat.mul_comm] at h10
      exact_mod_cast h10
    by_cases hc : c < 0
    · have hrend : Dec.render ⟨c, s⟩ = String.mk (['-'] ++
          (natDigits (c.natAbs / 10 ^ s) ++ ',' :: padZeros s (natDigits (c.natAbs % 10 ^ s)))) := by
        simp [Dec.render, hc, hs]
      have h := parseDec_mk_frac true (natDigits (c.natAbs / 10 ^ s))
        (padZeros s (natDigits (c.natAbs % 10 ^ s)))
        (natDigits_digits _) hfrd (natDigits_ne_nil _)
      simp only [if_pos trivial] at h
      rw [hrend, h, hval, hlen]
      congr 2
      omega
    · have hrend : Dec.render ⟨c, s⟩ = String.mk ([] ++
          (natDigits (c.natAbs / 10 ^ s) ++ ',' :: padZeros s (natDigits (c.natAbs % 10 ^ s)))) := by
        simp [Dec.render, hc, hs]
      have h := parseDec_mk_frac false (natDigits (c.natAbs / 10 ^ s))
        (padZeros s (natDigits (c.natAbs % 10 ^ s)))
        (natDigits_digits _) hfrd (natDigits_ne_nil _)
      simp only [Bool.false_eq_true, if_false] at h
      rw [hrend, h, hval, hlen]
      congr 2
      omega

/-! ## String-order lemmas (Python code-point comparison) -/

theorem listLtCh_irrefl (l : List Char) : listLtCh l l = false := by
  induction l with
  | nil => rfl
  | cons c t ih => simp [listLtCh, ih]

theorem listLtCh_asymm : ∀ a b : List Char, listLtCh a b = true → listLtCh b a = false := by
  intro a
  induction a with
  | nil =>
    intro b h
    cases b with
    | nil => simp [listLtCh] at h
    | cons c t => rfl
  | cons c t ih =>
    intro b h
    cases b with
    | nil => simp [listLtCh] at h
    | cons d u =>
      simp only [listLtCh] at h ⊢
      rcases Nat.lt_trichotomy c.toNat d.toNat with h1 | h1 | h1
      · rw [if_neg (show ¬ d.toNat < c.toNat by omega),
            if_pos (show c.toNat < d.toNat by omega)]
      · rw [if_neg (show ¬ c.toNat < d.toNat by omega),
            if_neg (show ¬ d.toNat < c.toNat by omega)] at h ⊢
        exact ih u h
      · rw [if_neg (show ¬ c.toNat < d.toNat by omega),
            if_pos (show d.toNat < c.toNat by omega)] at h
        simp at h

theorem listLtCh_trans : ∀ a b cc : List Char,
    listLtCh a b = true → listLtCh b cc = true → listLtCh a cc = true := by
  intro a
  induction a with
  | nil =>
    intro b cc h1 h2
    cases b with
    | nil => simp [listLtCh] at h1
    | cons d u =>
      cases cc with
      | nil => simp [listLtCh] at h2
      | cons e v => rfl
  | cons c t ih =>
    intro b cc h1 h2
    cases b with
    | nil => simp [listLtCh] at h1
    | cons d u =>
      cases cc with
      | nil => simp [listLtCh] at h2
      | cons e v =>
        simp only [listLtCh] at h1 h2 ⊢
        rcases Nat.lt_trichotomy c.toNat d.toNat with hcd | hcd | hcd
        · rcases Nat.lt_trichotomy d.toNat e.toNat with hde | hde | hde
          · rw [if_pos (show c.toNat < e.toNat by omega)]
          · rw [if_pos (show c.toNat < e.toNat by omega)]
          · rw [if_neg (show ¬ d.toNat < e.toNat by omega),
                if_pos (show e.toNat < d.toNat by omega)] at h2
            simp at h2
        · rcases Nat.lt_trichotomy d.toNat e.toNat with hde | hde | hde
          · rw [if_pos (show c.toNat < e.toNat by omega)]
          · rw [if_neg (show ¬ c.toNat < e.toNat by omega),
                if_neg (show ¬ e.toNat < c.toNat by omega)]
            rw [if_neg (show ¬ c.toNat < d.toNat by omega),
                if_neg (show ¬ d.toNat < c.toNat by omega)] at h1
            rw [if_neg (show ¬ d.toNat < e.toNat by omega),
                if_neg (show ¬ e.toNat < d.toNat by omega)] at h2
            exact ih u v h1 h2
          · rw [if_neg (show ¬ d.toNat < e.toNat by omega),
                if_pos (show e.toNat < d.toNat by omega)] at h2
            simp at h2
        · rw [if_neg (show ¬ c.toNat < d.toNat by omega),
              if_pos (show d.toNat < c.toNat by omega)] at h1
          simp at h1

theorem listLtCh_eq_of_not_lt : ∀ a b : List Char,
    listLtCh a b = false → listLtCh b a = false → a = b := by
  intro a
  induction a with
  | nil =>
    intro b h1 h2
    cases b with
    | nil => rfl
    | cons d u => simp [listLtCh] at h1
  | cons c t ih =>
    intro b h1 h2
    cases b with
    | nil => simp [listLtCh] at h2
    | cons d u =>
      simp only [listLtCh] at h1 h2
      rcases Nat.lt_trichotomy c.toNat d.toNat with hcd | hcd | hcd
      · rw [if_pos (show c.toNat < d.toNat by omega)] at h1
        simp at h1
      · rw [if_neg (show ¬ c.toNat < d.toNat by omega),
            if_neg (show ¬ d.toNat < c.toNat by omega)] at h1
        rw [if_neg (show ¬ d.toNat < c.toNat by omega),
            if_neg (show ¬ c.toNat < d.toNat by omega)] at h2
        have hch : c = d := Char.ext (UInt32.ext hcd)
        rw [hch, ih u h1 h2]
      · rw [if_pos (show d.toNat < c.toNat by omega)] at h2
        simp at h2

theorem strLt_trans (a b c : String) (h1 : strLt a b = true) (h2 : strLt b c = true) :
    strLt a c = true := listLtCh_trans _ _ _ h1 h2

theorem strLt_asymm (a b : String) (h : strLt a b = true) : strLt b a = false :=
  listLtCh_asymm _ _ h

theorem strLt_irrefl (a : String) : strLt a a = false := listLtCh_irrefl _

theorem strLe_of_lt (a b : String) (h : strLt a b = true) : strLe a b = true := by
  simp [strLe, strLt_asymm a b h]

theorem strLe_of_not_lt (a b : String) (h : strLt b a = false) : strLe a b = true := by
  simp [strLe, h]

theorem strLe_refl (a : String) : strLe a a = true := by
  simp [strLe, strLt_irrefl]

theorem strLe_trans (a b c : String) (h1 : strLe a b = true) (h2 : strLe b c = true) :
    strLe a c = true := by
  simp only [strLe, Bool.not_eq_true'] at h1 h2 ⊢
  cases hca : strLt c a with
  | false => rfl
  | true =>
    exfalso
    by_cases hab : strLt a b = true
    · have hcb := strLt_trans c a b hca hab
      rw [h2] at hcb
      exact absurd hcb (by simp)
    · have heq := listLtCh_eq_of_not_lt a.data b.data
        (by simpa [strLt] using hab) h1
      have hcb : strLt c b = true := by
        rw [strLt, ← heq]
        exact hca
      rw [h2] at hcb
      exact absurd hcb (by simp)

theorem listMinStr_le (l : List String) : ∀ x : String,
    strLe (listMinStr x l) x = true ∧ ∀ y ∈ l, strLe (listMinStr x l) y = true := by
  induction l with
  | nil => intro x; exact ⟨strLe_refl x, by simp⟩
  | cons s t ih =>
    intro x
    have hstep : listMinStr x (s :: t) = listMinStr (if strLt s x then s else x) t := by
      simp [listMinStr]
    by_cases hsx : strLt s x = true
    · have ihm := ih s
      rw [hstep, if_pos hsx]
      refine ⟨strLe_trans _ _ _ ihm.1 (strLe_of_lt _ _ hsx), ?_⟩
      intro y hy
      rcases List.mem_cons.mp hy with h1 | h1
      · rw [h1]; exact ihm.1
      · exact ihm.2 y h1
    · have ihm := ih x
      rw [hstep, if_neg hsx]
      refine ⟨ihm.1, ?_⟩
      intro y hy
      rcases List.mem_cons.mp hy with h1 | h1
      · rw [h1]
        exact strLe_trans _ _ _ ihm.1
          (strLe_of_not_lt _ _ (by simpa using hsx))
      · exact ihm.2 y h1

theorem listMinStr_mem (l : List String) : ∀ x : String,
    listMinStr x l = x ∨ listMinStr x l ∈ l := by
  induction l with
  | nil => intro x; left; rfl
  | cons s t ih =>
    intro x
    have hstep : listMinStr x (s :: t) = listMinStr (if strLt s x then s else x) t := by
      simp [listMinStr]
    by_cases hsx : strLt s x = true
    · rw [hstep, if_pos hsx]
      rcases ih s with h1 | h1
      · right; rw [h1]; simp
      · right; simp [h1]
    · rw [hstep, if_neg hsx]
      rcases ih x with h1 | h1
      · left; exact h1
      · right; simp [h1]

theorem listMaxStr_ge (l : List String) : ∀ x : String,
    strLe x (listMaxStr x l) = true ∧ ∀ y ∈ l, strLe y (listMaxStr x l) = true := by
  induction l with
  | nil => intro x; exact ⟨strLe_refl x, by simp⟩
  | cons s t ih =>
    intro x
    have hstep : listMaxStr x (s :: t) = listMaxStr (if strLt x s then s else x) t := by
      simp [listMaxStr]
    by_cases hxs : strLt x s = true
    · have ihm := ih s
      rw [hstep, if_pos hxs]
      refine ⟨strLe_trans _ _ _ (strLe_of_lt _ _ hxs) ihm.1, ?_⟩
      intro y hy
      rcases List.mem_cons.mp hy with h1 | h1
      · rw [h1]; exact ihm.1
      · exact ihm.2 y h1
    · have ihm := ih x
      rw [hstep, if_neg hxs]
      refine ⟨ihm.1, ?_⟩
      intro y hy
      rcases List.mem_cons.mp hy with h1 | h1
      · rw [h1]
        exact strLe_trans _ _ _ (strLe_of_not_lt _ _ (by simpa using hxs)) ihm.1
      · exact ihm.2 y h1

theorem listMaxStr_mem (l : List String) : ∀ x : String,
    listMaxStr x l = x ∨ listMaxStr x l ∈ l := by
  induction l with
  | nil => intro x; left; rfl
  | cons s t ih =>
    intro x
    have hstep : listMaxStr x (s :: t) = listMaxStr (if strLt x s then s else x) t := by
      simp [listMaxStr]
    by_cases hxs : strLt x s = true
    · rw [hstep, if_pos hxs]
      rcases ih s with h1 | h1
      · right; rw [h1]; simp
      · right; simp [h1]
    · rw [hstep, if_neg hxs]
      rcases ih x with h1 | h1
      · left; exact h1
      · right; simp [h1]

/-! ## Value-level facts about the `Decimal` embedding -/

theorem Dec.val_add (x y : Dec) : (x.add y).val = x.val + y.val := by
  obtain ⟨a, s⟩ := x
  obtain ⟨b, t⟩ := y
  simp only [Dec.add, Dec.val]
  have hs : (10 : ℚ) ^ (max s t - s) * (10 : ℚ) ^ s = (10 : ℚ) ^ (max s t) := by
    rw [← pow_add]
    congr 1
    omega
  have ht : (10 : ℚ) ^ (max s t - t) * (10 : ℚ) ^ t = (10 : ℚ) ^ (max s t) := by
    rw [← pow_add]
    congr 1
    omega
  field_simp
  linear_combination (a : ℚ) * 10 ^ t * hs + (b : ℚ) * 10 ^ s * ht

theorem Dec.val_mul (x y : Dec) : (x.mul y).val = x.val * y.val := by
  obtain ⟨a, s⟩ := x
  obtain ⟨b, t⟩ := y
  simp only [Dec.mul, Dec.val]
  rw [pow_add]
  push_cast
  field_simp

theorem Dec.val_div100 (x : Dec) : x.div100.val = x.val / 100 := by
  obtain ⟨a, s⟩ := x
  simp only [Dec.div100]
  by_cases h1 : a % 10 = 0
  · by_cases h2 : (a / 10) % 10 = 0
    · rw [if_pos h1, if_pos h2]
      obtain ⟨b, hb⟩ : ∃ b, a = 100 * b := ⟨a / 100, by omega⟩
      subst hb
      have hq : (100 : ℤ) * b / 100 = b := by omega
      simp only [Dec.val, hq]
      push_cast
      field_simp
      ring
    · rw [if_pos h1, if_neg h2]
      obtain ⟨b, hb⟩ : ∃ b, a = 10 * b := ⟨a / 10, by omega⟩
      subst hb
      have hq : (10 : ℤ) * b / 10 = b := by omega
      simp only [Dec.val, hq, pow_succ]
      push_cast
      field_simp
      ring
  · rw [if_neg h1]
    show (↑a : ℚ) / 10 ^ (s + 2) = (↑a : ℚ) / 10 ^ s / 100
    rw [pow_add, div_div]
    norm_num

/-- Round a rational to an integer with the `ROUND_HALF_EVEN` rule (the
specification-level counterpart of the coefficient arithmetic in
`Dec.quantize2`). -/
def rheQ (q : ℚ) : ℤ :=
  if q - ⌊q⌋ < 1/2 then ⌊q⌋
  else if 1/2 < q - ⌊q⌋ then ⌊q⌋ + 1
  else if ⌊q⌋ % 2 = 0 then ⌊q⌋ else ⌊q⌋ + 1

theorem rheQ_intCast (z : ℤ) : rheQ (z : ℚ) = z := by
  norm_num [rheQ, Int.floor_intCast]

/-- Quantization to two places computes exactly the half-even rounding of
`100 ×` the value, divided by 100. -/
theorem Dec.val_quantize2 (x : Dec) : x.quantize2.val = (rheQ (x.val * 100) : ℚ) / 100 := by
  obtain ⟨a, s⟩ := x
  by_cases hs : s ≤ 2
  · have hpow : (10 : ℚ) ^ (2 - s) * (10 : ℚ) ^ s = 100 := by
      rw [← pow_add, show 2 - s + s = 2 by omega]
      norm_num
    have hint : (⟨a, s⟩ : Dec).val * 100 = ((a * 10 ^ (2 - s) : ℤ) : ℚ) := by
      simp only [Dec.val]
      rw [div_mul_eq_mul_div, div_eq_iff (show (10 : ℚ) ^ s ≠ 0 by positivity)]
      push_cast
      rw [mul_assoc, hpow]
    rw [hint, rheQ_intCast]
    simp only [Dec.quantize2, if_pos hs, Dec.val]
    push_cast
    norm_num
  · simp only [Dec.quantize2, if_neg hs]
    have hd : (0 : ℤ) < 10 ^ (s - 2) := by positivity
    set d : ℤ := 10 ^ (s - 2) with hdd
    have hfm := Int.fdiv_add_fmod a d
    have hfm0 : 0 ≤ Int.fmod a d := Int.fmod_nonneg' a hd
    have hfmd : Int.fmod a d < d := Int.fmod_lt_of_pos a hd
    set q := Int.fdiv a d with hq
    have hr0 : 0 ≤ a - q * d := by rw [mul_comm]; omega
    have hrd : a - q * d < d := by rw [mul_comm]; omega
    have hdQ : (0 : ℚ) < (d : ℚ) := by exact_mod_cast hd
    have hval : (⟨a, s⟩ : Dec).val * 100 = (a : ℚ) / (d : ℚ) := by
      simp only [Dec.val, hdd]
      have hpow : (10 : ℚ) ^ s = (10 : ℚ) ^ (s - 2) * 100 := by
        rw [show s = s - 2 + 2 by omega, pow_add]
        norm_num
      rw [hpow]
      push_cast
      field_simp
      ring
    have hfq : ⌊(a : ℚ) / (d : ℚ)⌋ = q := by
      have h1 : q * d ≤ a := by rw [mul_comm]; omega
      have h2 : a < (q + 1) * d := by
        have hx : (q + 1) * d = d * q + d := by ring
        omega
      rw [Int.floor_eq_iff]
      constructor
      · rw [le_div_iff₀ hdQ]
        exact_mod_cast h1
      · rw [div_lt_iff₀ hdQ]
        have h2Q : ((a : ℤ) : ℚ) < (((q + 1) * d : ℤ) : ℚ) := by exact_mod_cast h2
        push_cast at h2Q
        linarith
    have hfrac : (a : ℚ) / (d : ℚ) - (q : ℚ) = ((a - q * d : ℤ) : ℚ) / (d : ℚ) := by
      push_cast
      field_simp
      ring
    have hlt : (((a - q * d : ℤ) : ℚ) / (d : ℚ) < 1/2) ↔ (2 * (a - q * d) < d) := by
      rw [div_lt_iff₀ hdQ]
      constructor
      · intro h
        push_cast at h
        have h2 : ((2 * (a - q * d) : ℤ) : ℚ) < ((d : ℤ) : ℚ) := by push_cast; linarith
        exact_mod_cast h2
      · intro h
        have h2 : ((2 * (a - q * d) : ℤ) : ℚ) < ((d : ℤ) : ℚ) := by exact_mod_cast h
        push_cast at h2 ⊢
        linarith
    have hgt : (1/2 < ((a - q * d : ℤ) : ℚ) / (d : ℚ)) ↔ (d < 2 * (a - q * d)) := by
      rw [lt_div_iff₀ hdQ]
      constructor
      · intro h
        push_cast at h
        have h2 : ((d : ℤ) : ℚ) < ((2 * (a - q * d) : ℤ) : ℚ) := by push_cast; linarith
        exact_mod_cast h2
      · intro h
        have h2 : ((d : ℤ) : ℚ) < ((2 * (a - q * d) : ℤ) : ℚ) := by exact_mod_cast h
        push_cast at h2 ⊢
        linarith
    rw [rheQ, hval, hfq, hfrac]
    have hsides : ∀ z : ℤ, (⟨z, 2⟩ : Dec).val = (z : ℚ) / 100 := by
      intro z
      norm_num [Dec.val]
    by_cases hc1 : 2 * (a - q * d) < d
    · rw [if_pos hc1, if_pos (hlt.mpr hc1), hsides]
    · rw [if_neg hc1, if_neg (fun hcc => hc1 (hlt.mp hcc))]
      by_cases hc2 : d < 2 * (a - q * d)
      · rw [if_pos hc2, if_pos (hgt.mpr hc2), hsides]
      · rw [if_neg hc2, if_neg (fun hcc => hc2 (hgt.mp hcc))]
        by_cases hc3 : q % 2 = 0
        · rw [if_pos hc3, hsides]
        · rw [if_neg hc3, hsides]

/-! ## Supporting facts about the extractor fold -/

theorem Dec.zero_add_left (v : Dec) : Dec.zero.add v = v := by
  obtain ⟨c, s⟩ := v
  simp [Dec.add, Dec.zero]

theorem Dec.veq_zero_iff (x : Dec) : x.veq Dec.zero = true ↔ x.c = 0 := by
  simp [Dec.veq, Dec.zero]

theorem lookupQ_addAssoc_same (m : List (String × Dec)) (k : String) (v : Dec) :
    lookupQ (addAssoc m k v) k = (lookupQ m k).add v := by
  induction m with
  | nil => simp [addAssoc, lookupQ, Dec.zero_add_left]
  | cons p t ih =>
    by_cases h : p.1 = k
    · simp [addAssoc, lookupQ, h]
    · simp [addAssoc, lookupQ, h, ih]

theorem lookupQ_addAssoc_other (m : List (String × Dec)) (k k2 : String) (v : Dec)
    (h : k2 ≠ k) : lookupQ (addAssoc m k v) k2 = lookupQ m k2 := by
  have hkk : ¬ (k = k2) := Ne.symm h
  induction m with
  | nil => simp [addAssoc, lookupQ, hkk]
  | cons p t ih =>
    by_cases hp : p.1 = k
    · simp [addAssoc, lookupQ, hp, hkk]
    · by_cases hp2 : p.1 = k2
      · simp [addAssoc, lookupQ, hp, hp2, h]
      · simp [addAssoc, lookupQ, hp, hp2, ih]

/-- Decidable equality on `Except`, used to evaluate concrete runs. -/
def exceptDecEqFun {ε α : Type} [DecidableEq ε] [DecidableEq α] :
    (a b : Except ε α) → Decidable (a = b)
  | .error e, .error f =>
    match decEq e f with
    | isTrue h => isTrue (by rw [h])
    | isFalse h => isFalse (by intro hc; injection hc; exact h (by assumption))
  | .error _, .ok _ => isFalse (by intro hc; cases hc)
  | .ok _, .error _ => isFalse (by intro hc; cases hc)
  | .ok a, .ok b =>
    match decEq a b with
    | isTrue h => isTrue (by rw [h])
    | isFalse h => isFalse (by intro hc; injection hc; exact h (by assumption))

instance {ε α : Type} [DecidableEq ε] [DecidableEq α] : DecidableEq (Except ε α) :=
  exceptDecEqFun

theorem except_bind_ok {ε α β : Type} (a : α) (f : α → Except ε β) :
    (Except.ok a >>= f) = f a := rfl

theorem except_bind_error {ε α β : Type} (e : ε) (f : α → Except ε β) :
    ((Except.error e : Except ε α) >>= f) = Except.error e := rfl

theorem except_pure_eq {ε α : Type} (a : α) : (pure a : Except ε α) = Except.ok a := rfl

theorem mem_addAssoc_fst (m : List (String × Dec)) (k : String) (v : Dec) :
    k ∈ (addAssoc m k v).map Prod.fst := by
  induction m with
  | nil => simp [addAssoc]
  | cons p t ih =>
    by_cases h : p.1 = k
    · simp [addAssoc, h]
    · simp only [addAssoc, if_neg h, List.map_cons, List.mem_cons]
      right
      exact ih

theorem stepInterval_frame (tcId : Option String) (acc : RavAcc) (ti : TimeInterval)
    (acc2 : RavAcc) (h : stepInterval tcId acc ti = .ok acc2) :
    acc2.periods = acc.periods ∧ acc2.tcid = acc.tcid := by
  unfold stepInterval at h
  split at h
  · cases h; exact ⟨rfl, rfl⟩
  · split at h
    · cases h; exact ⟨rfl, rfl⟩
    · split at h
      · cases h
      · cases h; exact ⟨rfl, rfl⟩

theorem foldInterval_frame (l : List TimeInterval) : ∀ (tcId : Option String)
    (acc acc2 : RavAcc), l.foldlM (stepInterval tcId) acc = .ok acc2 →
    acc2.periods = acc.periods ∧ acc2.tcid = acc.tcid := by
  induction l with
  | nil =>
    intro tcId acc acc2 h
    simp only [List.foldlM_nil, except_pure_eq] at h
    cases h
    exact ⟨rfl, rfl⟩
  | cons ti t ih =>
    intro tcId acc acc2 h
    rw [List.foldlM_cons] at h
    cases hs : stepInterval tcId acc ti with
    | error e => rw [hs, except_bind_error] at h; cases h
    | ok mid =>
      rw [hs, except_bind_ok] at h
      have h1 := stepInterval_frame tcId acc ti mid hs
      have h2 := ih tcId mid acc2 h
      exact ⟨h2.1.trans h1.1, h2.2.trans h1.2⟩

theorem stepTimeCard_periods (acc : RavAcc) (tc : TimeCard) (acc2 : RavAcc)
    (h : stepTimeCard acc tc = .ok acc2) :
    acc2.periods = periodStep acc.periods tc := by
  unfold stepTimeCard at h
  exact (foldInterval_frame tc.intervals _ _ acc2 h).1

theorem foldTimeCards_periods (tcs : List TimeCard) : ∀ acc acc2 : RavAcc,
    tcs.foldlM stepTimeCard acc = .ok acc2 →
    acc2.periods = tcs.foldl periodStep acc.periods := by
  induction tcs with
  | nil =>
    intro acc acc2 h
    simp only [List.foldlM_nil, except_pure_eq] at h
    cases h
    rfl
  | cons tc t ih =>
    intro acc acc2 h
    rw [List.foldlM_cons] at h
    cases hs : stepTimeCard acc tc with
    | error e => rw [hs, except_bind_error] at h; cases h
    | ok mid =>
      rw [hs, except_bind_ok] at h
      rw [List.foldl_cons, ← stepTimeCard_periods acc tc mid hs]
      exact ih mid acc2 h

/-! ## Claim C4 -/

/-- Modelled from the claim wording (C4): the nested reported-time pair of
one record, when both dates are present and non-empty. -/
def nestedPair (tc : TimeCard) : Option (String × String) :=
  match tc.reportedTime with
  | some (some a, some b) => if a ≠ "" && b ≠ "" then some (a, b) else none
  | _ => none

/-- Modelled from the claim wording (C4): the record's own date pair. -/
def ownPair (tc : TimeCard) : Option (String × String) :=
  match tc.ownStart, tc.ownEnd with
  | some a, some b => if a ≠ "" && b ≠ "" then some (a, b) else none
  | _, _ => none

/-- Modelled from the claim wording (C4): per-record period resolution —
for every record, the nested pair when present, else the record's own
pair; all resolved periods collected. -/
def claimPeriods (tcs : List TimeCard) : List (String × String) :=
  tcs.foldl (fun acc tc =>
    match nestedPair tc with
    | some p => acc ++ [p]
    | none =>
      match ownPair tc with
      | some p => acc ++ [p]
      | none => acc) []

/-- A record whose nested reported-time block carries a period. -/
def c4tc1 : TimeCard :=
  ⟨none, none, some (some "2024-01-10", some "2024-01-20"), none, none, []⟩

/-- A record with no reported-time block but its own date pair. -/
def c4tc2 : TimeCard :=
  ⟨none, none, none, some "2024-01-05", some "2024-01-25", []⟩

/-- C4, counterexample: the claim says each record falls back to its own
date pair when the nested pair is absent, and that `periodStart` is `≤`
every collected start.  Here the second record's own pair starts at
`"2024-01-05"` and is collected under the claim's per-record reading, yet
the extractor returns `"2024-01-10"`: the source consults a record's own
pair only while the global `all_periods` list is still empty, so the
second record's pair is never read. -/
theorem c4_counterexample :
    ("2024-01-05", "2024-01-25") ∈ claimPeriods [c4tc1, c4tc2] ∧
    (read_rav_content [c4tc1, c4tc2]).map RavResult.periodStart = .ok "2024-01-10" ∧
    strLe "2024-01-10" "2024-01-05" = false := by decide

/-- C4 (amended): the extractor collects, per record, the nested
reported-time pair when both dates are truthy, and falls back to the
record's own pair only while no period has been collected yet (from this
or any earlier record).  `periodStart`/`periodEnd` are the code-point
lexicographic min/max over the starts/ends actually collected (empty
strings when none): the start is `≤` every collected start, the end is
`≥` every collected end, and both are realized by some collected
period. -/
theorem c4_period_bounds (tcs : List TimeCard) (r : RavResult)
    (hok : read_rav_content tcs = .ok r) :
    (collectPeriods tcs = [] → r.periodStart = "" ∧ r.periodEnd = "") ∧
    (∀ p ∈ collectPeriods tcs,
      strLe r.periodStart p.1 = true ∧ strLe p.2 r.periodEnd = true) ∧
    (collectPeriods tcs ≠ [] →
      r.periodStart ∈ (collectPeriods tcs).map Prod.fst ∧
      r.periodEnd ∈ (collectPeriods tcs).map Prod.snd) := by
  unfold read_rav_content at hok
  cases hf : tcs.foldlM stepTimeCard ⟨[], [], "", []⟩ with
  | error e => rw [hf, except_bind_error] at hok; cases hok
  | ok acc =>
    rw [hf, except_bind_ok] at hok
    have hper : acc.periods = collectPeriods tcs :=
      foldTimeCards_periods tcs _ acc hf
    cases hap : acc.periods with
    | nil =>
      rw [hap] at hok hper
      cases hok
      refine ⟨fun _ => ⟨rfl, rfl⟩, ?_, ?_⟩
      · intro p hp
        rw [← hper] at hp
        cases hp
      · intro hne
        exact absurd hper.symm hne
    | cons p ps =>
      rw [hap] at hok hper
      cases hok
      refine ⟨fun hc => absurd (hper.trans hc) (by simp), ?_, ?_⟩
      · intro y hy
        rw [← hper] at hy
        have hmin := listMinStr_le (ps.map Prod.fst) p.1
        have hmax := listMaxStr_ge (ps.map Prod.snd) p.2
        rcases List.mem_cons.mp hy with h1 | h1
        · rw [h1]
          exact ⟨hmin.1, hmax.1⟩
        · exact ⟨hmin.2 y.1 (List.mem_map_of_mem Prod.fst h1),
                 hmax.2 y.2 (List.mem_map_of_mem Prod.snd h1)⟩
      · intro _
        rw [← hper]
        constructor
        · rcases listMinStr_mem (ps.map Prod.fst) p.1 with h1 | h1
          · rw [h1]; simp
          · simp only [List.map_cons, List.mem_cons]
            right
            exact h1
        · rcases listMaxStr_mem (ps.map Prod.snd) p.2 with h1 | h1
          · rw [h1]; simp
          · simp only [List.map_cons, List.mem_cons]
            right
            exact h1

/-- C4 witness input: both records carry nested periods. -/
def c4w1 : TimeCard :=
  ⟨none, none, some (some "2024-02-10", some "2024-02-14"), none, none, []⟩

/-- C4 witness input. -/
def c4w2 : TimeCard :=
  ⟨none, none, some (some "2024-02-01", some "2024-02-07"), none, none, []⟩

/-- Witness for `c4_period_bounds` at a concrete two-record document. -/
theorem c4_period_bounds_witness :
    (collectPeriods [c4w1, c4w2] = [] →
      ("2024-02-01" : String) = "" ∧ ("2024-02-14" : String) = "") ∧
    (∀ p ∈ collectPeriods [c4w1, c4w2],
      strLe "2024-02-01" p.1 = true ∧ strLe p.2 "2024-02-14" = true) ∧
    (collectPeriods [c4w1, c4w2] ≠ [] →
      ("2024-02-01" : String) ∈ (collectPeriods [c4w1, c4w2]).map Prod.fst ∧
      ("2024-02-14" : String) ∈ (collectPeriods [c4w1, c4w2]).map Prod.snd) :=
  c4_period_bounds [c4w1, c4w2]
    ⟨[], "2024-02-01", "2024-02-14", "", []⟩ (by decide)

/-! ## Claims C5 and C10 -/

theorem stepInterval_accum (tcId : Option String) (acc : RavAcc)
    (ti : TimeInterval) (code : String) (d : Dec)
    (hc : resolveCode ti = some code) (hcne : code ≠ "")
    (h0 : durationOf ti ≠ "0") (hne : durationOf ti ≠ "")
    (hp : parseDec (durationOf ti) = some d) :
    stepInterval tcId acc ti =
      .ok ⟨addAssoc acc.qty code d.div100, acc.periods, acc.tcid,
           acc.details ++ [(code, d.div100, tcId)]⟩ := by
  simp [stepInterval, hc, hcne, h0, hne, hp]

/-- C5: for every time interval with a resolved truthy rubric code (the
source's `if code` guard: the resolved code is non-empty) and a present,
non-`"0"` duration text, the extractor parses the duration (either `.` or
`,` as decimal separator), divides it by exactly 100, and adds the result
to `quantitiesByCode[code]` as a running sum — the previous value is
never overwritten, every other code is untouched, and an audit record is
appended to `lineDetails`. -/
theorem c5_duration_accumulation (tcId : Option String) (acc : RavAcc)
    (ti : TimeInterval) (code : String) (d : Dec)
    (hc : resolveCode ti = some code) (hcne : code ≠ "")
    (h0 : durationOf ti ≠ "0") (hne : durationOf ti ≠ "")
    (hp : parseDec (durationOf ti) = some d) :
    ∃ acc2, stepInterval tcId acc ti = .ok acc2 ∧
      acc2.qty = addAssoc acc.qty code d.div100 ∧
      lookupQ acc2.qty code = (lookupQ acc.qty code).add d.div100 ∧
      (lookupQ acc2.qty code).val = (lookupQ acc.qty code).val + d.val / 100 ∧
      (∀ k, k ≠ code → lookupQ acc2.qty k = lookupQ acc.qty k) ∧
      acc2.details = acc.details ++ [(code, d.div100, tcId)] := by
  refine ⟨⟨addAssoc acc.qty code d.div100, acc.periods, acc.tcid,
    acc.details ++ [(code, d.div100, tcId)]⟩, ?_, rfl, ?_, ?_, ?_, rfl⟩
  · exact stepInterval_accum tcId acc ti code d hc hcne h0 hne hp
  · exact lookupQ_addAssoc_same acc.qty code d.div100
  · rw [lookupQ_addAssoc_same acc.qty code d.div100, Dec.val_add, Dec.val_div100]
  · intro k hk
    exact lookupQ_addAssoc_other acc.qty code k d.div100 hk

/-- The interval state after the first `100010` interval of the scenario
in the claim (duration `800` hundredths already accumulated). -/
def c5Acc : RavAcc := ⟨[("100010", ⟨8, 0⟩)], [], "TC1", [("100010", ⟨8, 0⟩, some "TC1")]⟩

/-- The second `100010` interval of the scenario (duration `200`). -/
def c5Ti : TimeInterval := ⟨some "100010", none, none, some "200"⟩

/-- Witness for `c5_duration_accumulation`: the second interval of the
claim's scenario accumulates onto the first, `8 + 200/100 = 10.00`
hours. -/
theorem c5_duration_accumulation_witness :
    ∃ acc2, stepInterval (some "TC1") c5Acc c5Ti = .ok acc2 ∧
      acc2.qty = addAssoc c5Acc.qty "100010" (Dec.div100 ⟨200, 0⟩) ∧
      lookupQ acc2.qty "100010" =
        (lookupQ c5Acc.qty "100010").add (Dec.div100 ⟨200, 0⟩) ∧
      (lookupQ acc2.qty "100010").val =
        (lookupQ c5Acc.qty "100010").val + (Dec.val ⟨200, 0⟩) / 100 ∧
      (∀ k, k ≠ "100010" → lookupQ acc2.qty k = lookupQ c5Acc.qty k) ∧
      acc2.details = c5Acc.details ++ [("100010", Dec.div100 ⟨200, 0⟩, some "TC1")] :=
  c5_duration_accumulation (some "TC1") c5Acc c5Ti "100010" ⟨200, 0⟩
    (by decide) (by decide) (by decide) (by decide) (by decide)

/-- C10: the non-zero duration test is the string comparison
`duration_str != "0"`, so for an interval with a resolved truthy code a
zero value written with decimal places (such as `"0.00"`) is accepted:
the interval's code becomes a key of `quantitiesByCode` (its value
unchanged, i.e. still of zero value when it started at zero) and a
`lineDetails` record is appended; sub-line reconciliation then skips any
entry whose hours equal zero, so such an entry never produces a billing
sub-line. -/
theorem c10_zero_duration (tcId : Option String) (acc : RavAcc)
    (ti : TimeInterval) (code : String) (d : Dec)
    (hc : resolveCode ti = some code) (hcne : code ≠ "")
    (h0 : durationOf ti ≠ "0") (hne : durationOf ti ≠ "")
    (hp : parseDec (durationOf ti) = some d) (hz : d.c = 0) :
    ∃ acc2, stepInterval tcId acc ti = .ok acc2 ∧
      code ∈ acc2.qty.map Prod.fst ∧
      (lookupQ acc2.qty code).val = (lookupQ acc.qty code).val ∧
      acc2.details = acc.details ++ [(code, d.div100, tcId)] ∧
      (∀ cat em st h2, Dec.veq h2 Dec.zero = true →
        rubricStep cat em st (code, h2) = st) := by
  refine ⟨⟨addAssoc acc.qty code d.div100, acc.periods, acc.tcid,
    acc.details ++ [(code, d.div100, tcId)]⟩,
    stepInterval_accum tcId acc ti code d hc hcne h0 hne hp, ?_, ?_, rfl, ?_⟩
  · exact mem_addAssoc_fst acc.qty code d.div100
  · rw [lookupQ_addAssoc_same acc.qty code d.div100, Dec.val_add, Dec.val_div100]
    have : d.val = 0 := by
      obtain ⟨dc, ds⟩ := d
      simp at hz
      simp [Dec.val, hz]
    rw [this]
    norm_num
  · intro cat em st h2 hh2
    unfold rubricStep
    rw [if_pos (by simp [hh2])]

/-- The `"0.00"`-duration interval of the claim. -/
def c10Ti : TimeInterval := ⟨some "999999", none, none, some "0.00"⟩

/-- Witness for `c10_zero_duration` at duration text `"0.00"` on an empty
accumulator. -/
theorem c10_zero_duration_witness :
    ∃ acc2, stepInterval none ⟨[], [], "", []⟩ c10Ti = .ok acc2 ∧
      "999999" ∈ acc2.qty.map Prod.fst ∧
      (lookupQ acc2.qty "999999").val = (lookupQ ([] : List (String × Dec)) "999999").val ∧
      acc2.details = [] ++ [("999999", Dec.div100 ⟨0, 2⟩, none)] ∧
      (∀ cat em st h2, Dec.veq h2 Dec.zero = true →
        rubricStep cat em st ("999999", h2) = st) :=
  c10_zero_duration none ⟨[], [], "", []⟩ c10Ti "999999" ⟨0, 2⟩
    (by decide) (by decide) (by decide) (by decide) (by decide) (by decide)

/-! ## Claim C8 -/

/-- Modelled from the claim wording (C8): the cascade described by the
spec — Rev2007 marker in the default namespace URI, else Rev2004 marker,
else a root local name ending in the Rev2007 envelope tag, else
Rev2004. -/
def claimResolver (defaultNs rootTag : String) : NsVariant :=
  if containsSub "2007-04-15" defaultNs then NsVariant.rev2007
  else if containsSub "2004-08-02" defaultNs then NsVariant.rev2004
  else if endsWithStr "StaffingEnvelope" rootTag then NsVariant.rev2007
  else NsVariant.rev2004

/-- C8: the namespace resolver is a total function of the parsed document
(it always returns a variant, with no error path) and computes exactly
the claim's cascade: Rev2007 marker first, then Rev2004 marker, then the
root-tag suffix test, defaulting to Rev2004. -/
theorem c8_detect_namespace (defaultNs rootTag : String) :
    detect_namespace defaultNs rootTag = claimResolver defaultNs rootTag := rfl

/-! ## Structure of the merge pipeline -/

theorem readOptNum_error (t : Option String) (e : AppError)
    (h : readOptNum t = .error e) : e = .decimalError := by
  unfold readOptNum at h
  split at h
  · cases h
  · split at h
    · cases h
    · split at h
      · cases h
      · cases h; rfl

theorem sumExisting_error (m : List (String × SubLine)) : ∀ e : AppError,
    sumExisting m = .error e → e = .decimalError := by
  induction m with
  | nil => intro e h; cases h
  | cons p t ih =>
    intro e h
    unfold sumExisting at h
    cases hq : readOptNum (p.2.itemQuantity.map Prod.snd) with
    | error eq =>
      rw [hq, except_bind_error] at h
      cases h
      exact readOptNum_error _ _ hq
    | ok q =>
      rw [hq, except_bind_ok] at h
      cases hc : readOptNum p.2.chargeTotal with
      | error ec =>
        rw [hc, except_bind_error] at h
        cases h
        exact readOptNum_error _ _ hc
      | ok cq =>
        rw [hc, except_bind_ok] at h
        cases ht : sumExisting t with
        | error et =>
          rw [ht, except_bind_error] at h
          cases h
          exact ih _ ht
        | ok tl =>
          rw [ht, except_bind_ok] at h
          cases h

theorem processMainLine_error (agg : Agg) (cat : Catalog) (ml : MainLine)
    (e : AppError) (h : processMainLine agg cat ml = .error e) : e = .decimalError := by
  unfold processMainLine at h
  cases hs : sumExisting (buildExistingMap ml.sublines) with
  | error es =>
    rw [hs] at h
    cases h
    exact sumExisting_error _ _ hs
  | ok tl =>
    rw [hs] at h
    cases h

theorem mergeBody_error (agg : Agg) (cat : Catalog) (inv : Invoice)
    (e : AppError) (h : mergeBody agg cat inv = .error e) : e = .decimalError := by
  unfold mergeBody at h
  split at h
  · cases h
  · split at h
    · cases h
      exact processMainLine_error agg cat _ _ (by assumption)
    · cases h

theorem firstInvoice_none_iff (doc : Doc) :
    firstInvoice doc = none ↔ doc.invoiceNS = none ∧ doc.invoiceNoNS = none := by
  unfold firstInvoice
  cases doc.invoiceNS <;> simp

theorem update_invoice_spec (doc : Doc) (agg : Agg) (cat : Catalog) :
    (firstInvoice doc = none ∧ update_invoice doc agg cat = .error .structureError) ∨
    (∃ inv, firstInvoice doc = some inv ∧
      ((∃ e, mergeBody agg cat inv = .error e ∧ update_invoice doc agg cat = .error e) ∨
       (∃ inv2 out, mergeBody agg cat inv = .ok inv2 ∧
         update_invoice doc agg cat = .ok out ∧ firstInvoice out = some inv2))) := by
  unfold update_invoice firstInvoice
  cases hN : doc.invoiceNS with
  | some inv =>
    right
    refine ⟨inv, rfl, ?_⟩
    cases hb : mergeBody agg cat inv with
    | error e =>
      refine Or.inl ⟨e, rfl, ?_⟩
      simp only [hb]
      rfl
    | ok inv2 =>
      right
      refine ⟨inv2, { doc with invoiceNS := some inv2 }, rfl, ?_, rfl⟩
      simp only [hb]
      rfl
  | none =>
    cases hN2 : doc.invoiceNoNS with
    | some inv =>
      right
      refine ⟨inv, rfl, ?_⟩
      cases hb : mergeBody agg cat inv with
      | error e =>
        refine Or.inl ⟨e, rfl, ?_⟩
        simp only [hb]
        rfl
      | ok inv2 =>
        right
        refine ⟨inv2, ⟨none, some inv2⟩, rfl, ?_, rfl⟩
        simp only [hb]
        rfl
    | none => exact Or.inl ⟨rfl, rfl⟩

theorem update_invoice_ok (doc : Doc) (agg : Agg) (cat : Catalog) (out : Doc)
    (hok : update_invoice doc agg cat = .ok out) :
    ∃ inv inv2, firstInvoice doc = some inv ∧ mergeBody agg cat inv = .ok inv2 ∧
      firstInvoice out = some inv2 := by
  rcases update_invoice_spec doc agg cat with ⟨_, h2⟩ | ⟨inv, hi, hrest⟩
  · rw [h2] at hok; cases hok
  · rcases hrest with ⟨e, _, h3⟩ | ⟨inv2, out2, hb, hu, hf⟩
    · rw [h3] at hok; cases hok
    · rw [hu] at hok
      cases hok
      exact ⟨inv, inv2, hi, hb, hf⟩

/-! ## Claim C1 -/

/-- C1: `update_invoice` raises `StructureError` exactly when no `Invoice`
node can be located under either the namespace-qualified or the
unqualified lookup.  Every other failure path raises a different error
(`decimalError`), never `structureError`.  When the merge raises, it
returns through `Except.error`, which carries no document: the caller
receives no (partial) output text, matching the source, which raises
before any serialization. -/
theorem c1_structure_error_iff (doc : Doc) (agg : Agg) (cat : Catalog) :
    update_invoice doc agg cat = .error .structureError ↔
      doc.invoiceNS = none ∧ doc.invoiceNoNS = none := by
  constructor
  · intro h
    rcases update_invoice_spec doc agg cat with ⟨h1, _⟩ | ⟨inv, _, hrest⟩
    · exact (firstInvoice_none_iff doc).mp h1
    · rcases hrest with ⟨e, hb, hu⟩ | ⟨inv2, out2, _, hu, _⟩
      · rw [hu] at h
        injection h with he
        rw [he] at hb
        have := mergeBody_error agg cat inv _ hb
        cases this
      · rw [hu] at h
        cases h
  · intro ⟨h1, h2⟩
    unfold update_invoice
    rw [h1, h2]

/-! ## Claim C3 -/

/-- The `DataInformation` entries of a header's staffing-info block. -/
def staffingOf (h : Header) : List DataInfo :=
  (h.userArea.getD none).getD []

theorem staffing_updatePeriods (ps pe : String) (h : Header) :
    staffingOf (updatePeriods ps pe h) =
      ((staffingOf h).map (fun d =>
        if d.name = "PeriodStart" then ⟨d.name, ps⟩
        else if d.name = "PeriodEnd" then ⟨d.name, pe⟩ else d))
      ++ (if !(staffingOf h).any (fun d => d.name = "PeriodStart") && ps ≠ "" then
            [⟨"PeriodStart", ps⟩] else [])
      ++ (if !(staffingOf h).any (fun d => d.name = "PeriodEnd") && pe ≠ "" then
            [⟨"PeriodEnd", pe⟩] else []) := by
  simp only [updatePeriods, staffingOf]
  rcases h with ⟨ua, tc, tt, ta⟩
  simp only []
  congr 1

theorem mergeBody_staffing (agg : Agg) (cat : Catalog) (inv : Invoice) (inv2 : Invoice)
    (h : Header) (hh : inv.header = some h) (hok : mergeBody agg cat inv = .ok inv2) :
    ∃ h2, inv2.header = some h2 ∧
      staffingOf h2 = staffingOf (updatePeriods agg.ps agg.pe h) := by
  obtain ⟨hdr, ref, mlOpt⟩ := inv
  simp only [] at hh
  subst hh
  cases mlOpt with
  | none =>
    simp only [mergeBody, Option.map_some] at hok
    cases hok
    exact ⟨updatePeriods agg.ps agg.pe h, rfl, rfl⟩
  | some ml =>
    simp only [mergeBody] at hok
    cases hp : processMainLine agg cat ml with
    | error e => rw [hp] at hok; cases hok
    | ok res =>
      rw [hp] at hok
      simp only [Option.map_some] at hok
      cases hok
      refine ⟨writeHeaderTotals res.2 (updatePeriods agg.ps agg.pe h), rfl, ?_⟩
      simp [writeHeaderTotals, staffingOf]

/-- Invoice with an existing non-empty `PeriodStart` entry and no other
structure. -/
def c3Doc : Doc :=
  ⟨some ⟨some ⟨some (some [⟨"PeriodStart", "2024-01-01"⟩]), none, none, none⟩,
    none, none⟩, none⟩

/-- An aggregate whose extractor found no period. -/
def c3Agg : Agg := ⟨[], "", "", ""⟩

/-- C3, counterexample: the claim says an existing non-empty period value
is never overwritten with an empty string.  But the in-place update is
unconditional in the source (`data_info.set("value", period_start)` runs
for every matching entry); only the append path is guarded by a non-empty
value.  Merging an empty-period aggregate into an invoice whose
`PeriodStart` holds `"2024-01-01"` rewrites it to `""`. -/
theorem c3_counterexample :
    staffingOf ⟨some (some [⟨"PeriodStart", "2024-01-01"⟩]), none, none, none⟩ =
      [⟨"PeriodStart", "2024-01-01"⟩] ∧
    (update_invoice c3Doc c3Agg []).map
      (fun d => (firstInvoice d).map (fun i => i.header.map staffingOf)) =
      .ok (some (some [⟨"PeriodStart", ""⟩])) ∧
    ("" : String) ≠ "2024-01-01" := by decide

/-- C3 (amended): during the period-metadata step every existing
`DataInformation` entry named `PeriodStart`/`PeriodEnd` has its value
rewritten in place with the extractor's value — even when that value is
the empty string — and a new entry is appended only when no entry of that
name exists and the extractor's value is non-empty. -/
theorem c3_period_update (doc : Doc) (agg : Agg) (cat : Catalog)
    (inv : Invoice) (h : Header) (out : Doc)
    (hi : firstInvoice doc = some inv) (hh : inv.header = some h)
    (hok : update_invoice doc agg cat = .ok out) :
    ∃ inv2 h2, firstInvoice out = some inv2 ∧ inv2.header = some h2 ∧
      staffingOf h2 =
        ((staffingOf h).map (fun d =>
          if d.name = "PeriodStart" then ⟨d.name, agg.ps⟩
          else if d.name = "PeriodEnd" then ⟨d.name, agg.pe⟩ else d))
        ++ (if !(staffingOf h).any (fun d => d.name = "PeriodStart") && agg.ps ≠ "" then
              [⟨"PeriodStart", agg.ps⟩] else [])
        ++ (if !(staffingOf h).any (fun d => d.name = "PeriodEnd") && agg.pe ≠ "" then
              [⟨"PeriodEnd", agg.pe⟩] else []) := by
  obtain ⟨inv0, inv2, hi0, hb, hf⟩ := update_invoice_ok doc agg cat out hok
  rw [hi] at hi0
  injection hi0 with he
  subst he
  obtain ⟨h2, hh2, hs2⟩ := mergeBody_staffing agg cat _ inv2 h hh hb
  exact ⟨inv2, h2, hf, hh2, hs2.trans (staffing_updatePeriods agg.ps agg.pe h)⟩

/-- Witness input for `c3_period_update`: a header with one `PeriodEnd`
entry and no `PeriodStart`. -/
def c3wDoc : Doc :=
  ⟨some ⟨some ⟨some (some [⟨"PeriodEnd", "2024-01-15"⟩]), none, none, none⟩,
    none, none⟩, none⟩

/-- Witness aggregate with both period bounds non-empty. -/
def c3wAgg : Agg := ⟨[], "2024-02-01", "2024-02-29", ""⟩

/-- Witness for `c3_period_update` at a concrete merge: the existing
`PeriodEnd` is rewritten in place and a `PeriodStart` entry is
appended. -/
theorem c3_period_update_witness :
    ∃ inv2 h2,
      firstInvoice (⟨some ⟨some ⟨some (some [⟨"PeriodEnd", "2024-02-29"⟩,
          ⟨"PeriodStart", "2024-02-01"⟩]), none, none, none⟩, none, none⟩, none⟩ : Doc) =
        some inv2 ∧
      inv2.header = some h2 ∧
      staffingOf h2 =
        ((staffingOf ⟨some (some [⟨"PeriodEnd", "2024-01-15"⟩]), none, none, none⟩).map
          (fun d =>
            if d.name = "PeriodStart" then ⟨d.name, c3wAgg.ps⟩
            else if d.name = "PeriodEnd" then ⟨d.name, c3wAgg.pe⟩ else d))
        ++ (if !(staffingOf ⟨some (some [⟨"PeriodEnd", "2024-01-15"⟩]), none, none,
                none⟩).any (fun d => d.name = "PeriodStart") && c3wAgg.ps ≠ "" then
              [⟨"PeriodStart", c3wAgg.ps⟩] else [])
        ++ (if !(staffingOf ⟨some (some [⟨"PeriodEnd", "2024-01-15"⟩]), none, none,
                none⟩).any (fun d => d.name = "PeriodEnd") && c3wAgg.pe ≠ "" then
              [⟨"PeriodEnd", c3wAgg.pe⟩] else []) :=
  c3_period_update c3wDoc c3wAgg []
    ⟨some ⟨some (some [⟨"PeriodEnd", "2024-01-15"⟩]), none, none, none⟩, none, none⟩
    ⟨some (some [⟨"PeriodEnd", "2024-01-15"⟩]), none, none, none⟩
    ⟨some ⟨some ⟨some (some [⟨"PeriodEnd", "2024-02-29"⟩,
      ⟨"PeriodStart", "2024-02-01"⟩]), none, none, none⟩, none, none⟩, none⟩
    (by decide) (by decide) (by decide)

/-! ## Claim C7 -/

theorem quantize2_zero_c (s : ℕ) : Dec.quantize2 ⟨0, s⟩ = ⟨0, 2⟩ := by
  unfold Dec.quantize2
  by_cases hs : s ≤ 2
  · rw [if_pos hs]
    simp
  · rw [if_neg hs]
    have hd : (0 : ℤ) < 10 ^ (s - 2) := by positivity
    simp only [Int.zero_fdiv, zero_mul, sub_zero, mul_zero]
    rw [if_pos hd]

/-- C7: a code absent from the catalog (in particular with an empty
catalog) resolves to the fallback entry — label `"Rubrique {code}"`,
rate `Decimal("0.00")`, line type `"BL"` —, the computed amount is of
value zero regardless of the hours and renders as `"0,00"`, and the
created sub-line carries no price block because the rate is not
positive. -/
theorem c7_unknown_code_fallback (cat : Catalog) (code : String)
    (hc : lookupCat cat code = none) :
    resolveRubric cat code = ("Rubrique " ++ code, Dec.zero2, "BL") ∧
    (∀ heures : Dec, ((heures.quantize2).mul Dec.zero2).quantize2 = ⟨0, 2⟩ ∧
      ((heures.quantize2).mul Dec.zero2).quantize2.val = 0 ∧
      ((heures.quantize2).mul Dec.zero2).quantize2.render = "0,00") ∧
    (∀ n : ℤ × String × Dec,
      (mkNewLine n.1 n.2.1 "BL" Dec.zero2 n.2.2 ⟨0, 2⟩).price = none) ∧
    (∀ (em : List (String × SubLine)) (st : LoopState) (heures : Dec),
      code ≠ "" → heures.veq Dec.zero = false →
      hasKey em ("Rubrique " ++ code) = false →
      rubricStep cat em st (code, heures) =
        { next := st.next + 1
          created := st.created ++
            [mkNewLine st.next ("Rubrique " ++ code) "BL" Dec.zero2 heures.quantize2 ⟨0, 2⟩]
          th := st.th.add heures.quantize2
          tm := st.tm.add ⟨0, 2⟩ }) := by
  have hres : resolveRubric cat code = ("Rubrique " ++ code, Dec.zero2, "BL") := by
    simp [resolveRubric, hc]
  have hmul : ∀ heures : Dec, (heures.quantize2).mul Dec.zero2 = ⟨0, heures.quantize2.s + 2⟩ := by
    intro heures
    simp [Dec.mul, Dec.zero2]
  have hq : ∀ heures : Dec, ((heures.quantize2).mul Dec.zero2).quantize2 = ⟨0, 2⟩ := by
    intro heures
    rw [hmul]
    exact quantize2_zero_c _
  refine ⟨hres, ?_, ?_, ?_⟩
  · intro heures
    refine ⟨hq heures, ?_, ?_⟩
    · rw [hq]
      simp [Dec.val]
    · rw [hq]
      rfl
  · intro n
    simp [mkNewLine, Dec.isPos, Dec.zero2]
  · intro em st heures hcode hz hkey
    unfold rubricStep
    rw [if_neg (by simp [hcode, hz])]
    simp only [hres]
    rw [if_neg (by simp [hkey])]
    rw [← hq heures]

/-- Witness for `c7_unknown_code_fallback`: empty catalog, code
`"999999"`, five hours. -/
theorem c7_unknown_code_fallback_witness :
    resolveRubric [] "999999" = ("Rubrique 999999", Dec.zero2, "BL") ∧
    ((Dec.quantize2 ⟨5, 0⟩).mul Dec.zero2).quantize2 = ⟨0, 2⟩ ∧
    rubricStep [] [] ⟨1, [], Dec.zero2, Dec.zero2⟩ ("999999", ⟨5, 0⟩) =
      { next := 2
        created := [mkNewLine 1 "Rubrique 999999" "BL" Dec.zero2 (Dec.quantize2 ⟨5, 0⟩) ⟨0, 2⟩]
        th := Dec.zero2.add (Dec.quantize2 ⟨5, 0⟩)
        tm := Dec.zero2.add ⟨0, 2⟩ } := by
  have h := c7_unknown_code_fallback [] "999999" (by decide)
  have h4 := h.2.2.2 [] ⟨1, [], Dec.zero2, Dec.zero2⟩ ⟨5, 0⟩
    (by decide) (by decide) (by decide)
  refine ⟨?_, (h.2.1 ⟨5, 0⟩).1, ?_⟩
  · rw [h.1]
    decide
  · rw [h4]
    decide

/-! ## Claim C6 -/

theorem mergeBody_totals (agg : Agg) (cat : Catalog) (inv : Invoice) (inv2 : Invoice)
    (ml : MainLine) (h : Header) (hml : inv.mainLine = some ml) (hh : inv.header = some h)
    (hok : mergeBody agg cat inv = .ok inv2) :
    ∃ tl, sumExisting (buildExistingMap ml.sublines) = .ok tl ∧
      inv2.header = some (writeHeaderTotals (loopOut agg cat ml tl.1 tl.2).tm
        (updatePeriods agg.ps agg.pe h)) := by
  obtain ⟨hdr, ref, mlOpt⟩ := inv
  simp only [] at hml hh
  subst hml
  subst hh
  simp only [mergeBody] at hok
  unfold processMainLine at hok
  cases hs : sumExisting (buildExistingMap ml.sublines) with
  | error e => rw [hs] at hok; cases hok
  | ok tl =>
    rw [hs] at hok
    simp only [Option.map_some] at hok
    cases hok
    exact ⟨tl, rfl, rfl⟩

theorem updatePeriods_totals (ps pe : String) (h : Header) :
    (updatePeriods ps pe h).totalCharges = h.totalCharges ∧
    (updatePeriods ps pe h).totalTax = h.totalTax ∧
    (updatePeriods ps pe h).totalAmount = h.totalAmount := by
  simp [updatePeriods]

/-- C6 (amended): on a merge that found a main line and a header, with
`N` the accumulated net total of the sub-line reconciliation, the
reconciler writes tax `= round(N × 0.20, 2)` into the tax node when one
is present, and gross `= round(N + N × 0.20, 2)` — the *unquantized* tax
enters the gross sum, unlike the claim's already-quantized tax — into the
gross node when one is present; rounding is half-even to two places, at
the rational level `rheQ (value × 100) / 100`.  All three header total
nodes are written only when they already exist and are never created. -/
theorem c6_totals (doc : Doc) (agg : Agg) (cat : Catalog) (inv : Invoice)
    (ml : MainLine) (h : Header) (out : Doc)
    (hi : firstInvoice doc = some inv) (hml : inv.mainLine = some ml)
    (hh : inv.header = some h) (hok : update_invoice doc agg cat = .ok out) :
    ∃ inv2 tl, firstInvoice out = some inv2 ∧
      sumExisting (buildExistingMap ml.sublines) = .ok tl ∧
      ∃ h2, inv2.header = some h2 ∧
        (let netT := (loopOut agg cat ml tl.1 tl.2).tm
         h2.totalTax =
           (if h.totalTax.isSome then some ((netT.mul Dec.twenty2).quantize2).render
            else none) ∧
         h2.totalAmount =
           (if h.totalAmount.isSome then
              some ((netT.add (netT.mul Dec.twenty2)).quantize2).render
            else none) ∧
         h2.totalCharges.isSome = h.totalCharges.isSome ∧
         h2.totalTax.isSome = h.totalTax.isSome ∧
         h2.totalAmount.isSome = h.totalAmount.isSome ∧
         ((netT.mul Dec.twenty2).quantize2).val =
           (rheQ ((netT.val * (1/5)) * 100) : ℚ) / 100 ∧
         ((netT.add (netT.mul Dec.twenty2)).quantize2).val =
           (rheQ ((netT.val + netT.val * (1/5)) * 100) : ℚ) / 100) := by
  obtain ⟨inv0, inv2, hi0, hb, hf⟩ := update_invoice_ok doc agg cat out hok
  rw [hi] at hi0
  injection hi0 with he
  subst he
  obtain ⟨tl, hs, hh2⟩ := mergeBody_totals agg cat _ inv2 ml h hml hh hb
  have hup := updatePeriods_totals agg.ps agg.pe h
  have htwenty : Dec.twenty2.val = 1/5 := by
    simp [Dec.twenty2, Dec.val]
    norm_num
  refine ⟨inv2, tl, hf, hs,
    writeHeaderTotals (loopOut agg cat ml tl.1 tl.2).tm (updatePeriods agg.ps agg.pe h),
    hh2, ?_, ?_, ?_, ?_, ?_, ?_, ?_⟩
  · simp [writeHeaderTotals, hup.2.1]
  · simp [writeHeaderTotals, hup.2.2]
  · simp only [writeHeaderTotals, hup.1]
    cases h.totalCharges <;> simp
  · simp only [writeHeaderTotals, hup.2.1]
    cases h.totalTax <;> simp
  · simp only [writeHeaderTotals, hup.2.2]
    cases h.totalAmount <;> simp
  · rw [Dec.val_quantize2, Dec.val_mul, htwenty]
  · rw [Dec.val_quantize2, Dec.val_add, Dec.val_mul, htwenty]

/-- Modelled from the claim wording (C6): gross computed from the
already-quantized two-decimal tax, `round(N + round(N × 0.20, 2), 2)`. -/
def claimGross (n : Dec) : Dec := (n.add ((n.mul Dec.twenty2).quantize2)).quantize2

/-- A sub-line whose charge total has three decimals. -/
def c6Sub : SubLine := ⟨some "1.1", some "X", none, some "0,021", none, none⟩

/-- Invoice with a main line, one pre-existing sub-line of total `0,021`,
and header tax/gross nodes. -/
def c6Doc : Doc :=
  ⟨some ⟨some ⟨none, none, some "t", some "g"⟩, none,
    some ⟨[], some "0", none, [c6Sub]⟩⟩, none⟩

/-- C6, counterexample: the claim states gross `= round(N + tax, 2)` with
`tax` the already-quantized two-decimal tax.  The source computes
`total + total * Decimal("0.20")` and quantizes once: at
`N = 0.021` (a net total reachable from a pre-existing sub-line whose
charge text is `"0,021"`), the code writes gross `"0,03"` while the
claim's formula yields `0.02`. -/
theorem c6_counterexample :
    (update_invoice c6Doc c3Agg []).map
      (fun d => (firstInvoice d).map (fun i => i.header.map
        (fun h2 => (h2.totalTax, h2.totalAmount)))) =
      .ok (some (some (some "0,00", some "0,03"))) ∧
    (sumExisting (buildExistingMap [c6Sub])).map
      (fun tl => (loopOut c3Agg [] ⟨[], some "0", none, [c6Sub]⟩ tl.1 tl.2).tm.veq
        ⟨21, 3⟩) = .ok true ∧
    (claimGross ⟨21, 3⟩).render = "0,02" ∧
    ("0,03" : String) ≠ "0,02" := by decide

/-- Witness for `c6_totals` at the concrete document `c6Doc`. -/
theorem c6_totals_witness :
    ∃ inv2 tl,
      firstInvoice (⟨some ⟨some ⟨some (some []), none, some "0,00", some "0,03"⟩, none,
        some ⟨[], some "0,021", none, [c6Sub]⟩⟩, none⟩ : Doc) = some inv2 ∧
      sumExisting (buildExistingMap (⟨[], some "0", none, [c6Sub]⟩ : MainLine).sublines) =
        .ok tl ∧
      ∃ h2, inv2.header = some h2 ∧
        (let netT := (loopOut c3Agg [] ⟨[], some "0", none, [c6Sub]⟩ tl.1 tl.2).tm
         h2.totalTax =
           (if (some "t" : Option String).isSome then
              some ((netT.mul Dec.twenty2).quantize2).render
            else none) ∧
         h2.totalAmount =
           (if (some "g" : Option String).isSome then
              some ((netT.add (netT.mul Dec.twenty2)).quantize2).render
            else none) ∧
         h2.totalCharges.isSome = (none : Option String).isSome ∧
         h2.totalTax.isSome = (some "t" : Option String).isSome ∧
         h2.totalAmount.isSome = (some "g" : Option String).isSome ∧
         ((netT.mul Dec.twenty2).quantize2).val =
           (rheQ ((netT.val * (1/5)) * 100) : ℚ) / 100 ∧
         ((netT.add (netT.mul Dec.twenty2)).quantize2).val =
           (rheQ ((netT.val + netT.val * (1/5)) * 100) : ℚ) / 100) :=
  c6_totals c6Doc c3Agg []
    ⟨some ⟨none, none, some "t", some "g"⟩, none, some ⟨[], some "0", none, [c6Sub]⟩⟩
    ⟨[], some "0", none, [c6Sub]⟩
    ⟨none, none, some "t", some "g"⟩
    (⟨some ⟨some ⟨some (some []), none, some "0,00", some "0,03"⟩, none,
      some ⟨[], some "0,021", none, [c6Sub]⟩⟩, none⟩ : Doc)
    (by decide) (by decide) (by decide) (by decide)

/-! ## Claim C9 -/

/-- Rational value contributed by an optional numeric text in the totals
loop (absent or empty text contributes nothing). -/
def optNumVal (t : Option String) : ℚ :=
  match t with
  | none => 0
  | some s =>
    if s = "" then 0
    else
      match parseDec s with
      | some d => d.val
      | none => 0

/-- The parsed charge total of a sub-line. -/
def chargeValOf (sl : SubLine) : ℚ := optNumVal sl.chargeTotal

/-- The parsed item quantity of a sub-line. -/
def qtyValOf (sl : SubLine) : ℚ := optNumVal (sl.itemQuantity.map Prod.snd)

theorem readOptNum_ok_val (t : Option String) (v : Dec)
    (h : readOptNum t = .ok v) : v.val = optNumVal t := by
  cases t with
  | none =>
    simp only [readOptNum] at h
    cases h
    simp [optNumVal, Dec.val, Dec.zero]
  | some s =>
    simp only [readOptNum] at h
    by_cases hs : s = ""
    · rw [if_pos hs] at h
      cases h
      simp [optNumVal, hs, Dec.val, Dec.zero]
    · rw [if_neg hs] at h
      cases hp : parseDec s with
      | none => rw [hp] at h; cases h
      | some d =>
        rw [hp] at h
        cases h
        simp [optNumVal, hs, hp]

theorem sumExisting_ok_val (m : List (String × SubLine)) : ∀ tl : Dec × Dec,
    sumExisting m = .ok tl →
    tl.1.val = (m.map (fun kv => qtyValOf kv.2)).sum ∧
    tl.2.val = (m.map (fun kv => chargeValOf kv.2)).sum := by
  induction m with
  | nil =>
    intro tl h
    cases h
    constructor <;> simp [Dec.val, Dec.zero2]
  | cons p t ih =>
    intro tl h
    unfold sumExisting at h
    cases hq : readOptNum (p.2.itemQuantity.map Prod.snd) with
    | error e => rw [hq, except_bind_error] at h; cases h
    | ok q =>
      rw [hq, except_bind_ok] at h
      cases hc : readOptNum p.2.chargeTotal with
      | error e => rw [hc, except_bind_error] at h; cases h
      | ok cq =>
        rw [hc, except_bind_ok] at h
        cases ht : sumExisting t with
        | error e => rw [ht, except_bind_error] at h; cases h
        | ok tl2 =>
          rw [ht, except_bind_ok] at h
          cases h
          have iht := ih tl2 ht
          constructor
          · rw [Dec.val_add, readOptNum_ok_val _ _ hq, iht.1]
            simp [qtyValOf]
          · rw [Dec.val_add, readOptNum_ok_val _ _ hc, iht.2]
            simp [chargeValOf]

/-- The amount a sub-line contributes, read back from its charge text. -/
def lineAmount (sl : SubLine) : ℚ := chargeValOf sl

theorem render_ne_empty (x : Dec) : x.render ≠ "" := by
  intro he
  have h := parseDec_render x
  rw [he] at h
  cases h

theorem lineAmount_mkNewLine (n : ℤ) (lib typ : String) (taux h2 montant : Dec) :
    lineAmount (mkNewLine n lib typ taux h2 montant) = montant.val := by
  unfold lineAmount chargeValOf optNumVal mkNewLine
  simp only []
  rw [if_neg (render_ne_empty montant), parseDec_render montant]

theorem rubricStep_tm_inv (cat : Catalog) (em : List (String × SubLine))
    (st : LoopState) (it : String × Dec) (tm0 : ℚ)
    (h : st.tm.val = tm0 + (st.created.map lineAmount).sum) :
    (rubricStep cat em st it).tm.val =
      tm0 + ((rubricStep cat em st it).created.map lineAmount).sum := by
  unfold rubricStep
  by_cases h1 : (it.1 = "" || it.2.veq Dec.zero) = true
  · rw [if_pos h1]
    exact h
  · rw [if_neg h1]
    by_cases h2 : hasKey em (resolveRubric cat it.1).1 = true
    · rw [if_pos h2]
      exact h
    · rw [if_neg h2]
      simp only [List.map_append, List.sum_append, List.map_cons, List.map_nil,
        List.sum_cons, List.sum_nil, Dec.val_add, h, lineAmount_mkNewLine]
      ring

theorem rubricLoop_tm (cat : Catalog) (em : List (String × SubLine)) :
    ∀ (items : List (String × Dec)) (st : LoopState) (tm0 : ℚ),
    st.tm.val = tm0 + (st.created.map lineAmount).sum →
    (items.foldl (rubricStep cat em) st).tm.val =
      tm0 + ((items.foldl (rubricStep cat em) st).created.map lineAmount).sum := by
  intro items
  induction items with
  | nil => intro st tm0 h; exact h
  | cons it t ih =>
    intro st tm0 h
    rw [List.foldl_cons]
    exact ih _ tm0 (rubricStep_tm_inv cat em st it tm0 h)

theorem mergeBody_mainline (agg : Agg) (cat : Catalog) (inv : Invoice) (inv2 : Invoice)
    (ml : MainLine) (hml : inv.mainLine = some ml)
    (hok : mergeBody agg cat inv = .ok inv2) :
    ∃ tl, sumExisting (buildExistingMap ml.sublines) = .ok tl ∧
      inv2.mainLine = some (assembleMainLine agg ml (loopOut agg cat ml tl.1 tl.2)) := by
  obtain ⟨hdr, ref, mlOpt⟩ := inv
  simp only [] at hml
  subst hml
  simp only [mergeBody] at hok
  unfold processMainLine at hok
  cases hs : sumExisting (buildExistingMap ml.sublines) with
  | error e => rw [hs] at hok; cases hok
  | ok tl =>
    rw [hs] at hok
    cases hok
    exact ⟨tl, rfl, rfl⟩

theorem assembleMainLine_own (agg : Agg) (ml : MainLine) (st : LoopState)
    (h : ml.ownTotal.isSome = true) :
    (assembleMainLine agg ml st).ownTotal = some st.tm.render ∧
    (assembleMainLine agg ml st).sublines = ml.sublines ++ st.created := by
  unfold assembleMainLine
  rw [if_pos h]
  by_cases hq : ml.itemQuantity.isSome = true
  · rw [if_pos hq]
    exact ⟨rfl, rfl⟩
  · rw [if_neg hq]
    exact ⟨rfl, rfl⟩

/-- Pre-existing sub-line `1.1` with description `A` and total `10`. -/
def c9S1 : SubLine := ⟨some "1.1", some "A", none, some "10", none, none⟩

/-- Pre-existing sub-line `1.2`, same description `A`, total `20`. -/
def c9S2 : SubLine := ⟨some "1.2", some "A", none, some "20", none, none⟩

/-- Invoice whose main line has two sub-lines sharing one description. -/
def c9Doc : Doc :=
  ⟨some ⟨none, none, some ⟨[], some "0", none, [c9S1, c9S2]⟩⟩, none⟩

/-- C9, counterexample: the claim sums the charge totals of *all*
pre-existing sub-lines.  The source sums `existing_lines.values()`, a
description-keyed dict in which a later duplicate description replaces an
earlier one: with sub-lines `A → 10` and `A → 20` and an empty aggregate,
the written main-line total is `20,00`, not the claim's `30`, and the gap
far exceeds the one-cent tolerance. -/
theorem c9_counterexample :
    (update_invoice c9Doc c3Agg []).map
      (fun d => (firstInvoice d).map (fun i => i.mainLine.map (fun m => m.ownTotal))) =
      .ok (some (some (some "20,00"))) ∧
    parseDec "20,00" = some ⟨2000, 2⟩ ∧
    Dec.val ⟨2000, 2⟩ = 20 ∧
    chargeValOf c9S1 + chargeValOf c9S2 = 30 ∧
    ¬ |(20 : ℚ) - 30| ≤ 1/100 := by
  refine ⟨by decide, by decide, ?_, ?_, ?_⟩
  · norm_num [Dec.val]
  · have h1 : chargeValOf c9S1 = (⟨10, 0⟩ : Dec).val := by
      simp [chargeValOf, c9S1, optNumVal, show parseDec "10" = some ⟨10, 0⟩ by decide]
    have h2 : chargeValOf c9S2 = (⟨20, 0⟩ : Dec).val := by
      simp [chargeValOf, c9S2, optNumVal, show parseDec "20" = some ⟨20, 0⟩ by decide]
    rw [h1, h2]
    norm_num [Dec.val]
  · norm_num

/-- C9 (amended): for every merge whose main line carries its own charge
total, the value written there is the rendering of the running net total
`N`, and `N` equals exactly (no tolerance needed) the sum of the parsed
charge totals of the `existing_lines` map — the pre-existing sub-lines
keyed by their non-empty description, a later duplicate replacing an
earlier one — plus the sum of the amounts of the newly created
sub-lines. -/
theorem c9_conservation (doc : Doc) (agg : Agg) (cat : Catalog) (inv : Invoice)
    (ml : MainLine) (out : Doc)
    (hi : firstInvoice doc = some inv) (hml : inv.mainLine = some ml)
    (hown : ml.ownTotal.isSome = true)
    (hok : update_invoice doc agg cat = .ok out) :
    ∃ tl, sumExisting (buildExistingMap ml.sublines) = .ok tl ∧
      (let st := loopOut agg cat ml tl.1 tl.2
       st.tm.val =
         ((buildExistingMap ml.sublines).map (fun kv => chargeValOf kv.2)).sum
           + (st.created.map lineAmount).sum ∧
       ∃ inv2 ml2, firstInvoice out = some inv2 ∧ inv2.mainLine = some ml2 ∧
         ml2.ownTotal = some st.tm.render ∧
         ml2.sublines = ml.sublines ++ st.created) := by
  obtain ⟨inv0, inv2, hi0, hb, hf⟩ := update_invoice_ok doc agg cat out hok
  rw [hi] at hi0
  injection hi0 with he
  subst he
  obtain ⟨tl, hs, hml2⟩ := mergeBody_mainline agg cat _ inv2 ml hml hb
  refine ⟨tl, hs, ?_, inv2,
    assembleMainLine agg ml (loopOut agg cat ml tl.1 tl.2), hf, hml2,
    (assembleMainLine_own agg ml _ hown).1, (assembleMainLine_own agg ml _ hown).2⟩
  have hinit : (⟨nextLineNumber (collectLineNumbers ml.sublines), [], tl.1, tl.2⟩ :
      LoopState).tm.val = tl.2.val + (([] : List SubLine).map lineAmount).sum := by
    simp
  have hloop := rubricLoop_tm cat (buildExistingMap ml.sublines)
    (sortAssoc agg.qty) ⟨nextLineNumber (collectLineNumbers ml.sublines), [], tl.1, tl.2⟩
    tl.2.val hinit
  unfold loopOut
  rw [hloop, (sumExisting_ok_val _ tl hs).2]

/-- Witness catalog: one rubric at rate 23.7. -/
def cw : Catalog := [("100010", "Base Contrat", ⟨237, 1⟩, "BL")]

/-- Witness invoice: main line with its own total node and no
sub-lines. -/
def c9wDoc : Doc := ⟨some ⟨none, none, some ⟨[], some "0", none, []⟩⟩, none⟩

/-- Witness aggregate: 8 hours of code `100010`. -/
def c9wAgg : Agg := ⟨[("100010", ⟨8, 0⟩)], "", "", ""⟩

/-- The sub-line the witness merge creates. -/
def c9wLine : SubLine :=
  ⟨some "1.1", some "Base Contrat", some "BL", some "189,60",
    some ("23,7", "12.46000", "1.90"), some ("pce", "8,00")⟩

/-- The witness merge output. -/
def c9wOut : Doc :=
  ⟨some ⟨none, none, some ⟨[], some "189,60", none, [c9wLine]⟩⟩, none⟩

/-- Witness for `c9_conservation` at a concrete merge that creates one
sub-line of amount `189,60`. -/
theorem c9_conservation_witness :
    ∃ tl, sumExisting (buildExistingMap (⟨[], some "0", none, []⟩ : MainLine).sublines) =
        .ok tl ∧
      (let st := loopOut c9wAgg cw ⟨[], some "0", none, []⟩ tl.1 tl.2
       st.tm.val =
         ((buildExistingMap (⟨[], some "0", none, []⟩ : MainLine).sublines).map
           (fun kv => chargeValOf kv.2)).sum + (st.created.map lineAmount).sum ∧
       ∃ inv2 ml2, firstInvoice c9wOut = some inv2 ∧ inv2.mainLine = some ml2 ∧
         ml2.ownTotal = some st.tm.render ∧
         ml2.sublines = (⟨[], some "0", none, []⟩ : MainLine).sublines ++ st.created) :=
  c9_conservation c9wDoc c9wAgg cw
    ⟨none, none, some ⟨[], some "0", none, []⟩⟩ ⟨[], some "0", none, []⟩ c9wOut
    (by decide) (by decide) (by decide) (by decide)

/-! ## Claim C2 -/

/-- The billing sub-lines of a document (empty when no main line). -/
def sublinesOf (d : Doc) : List SubLine :=
  match firstInvoice d with
  | some inv =>
    match inv.mainLine with
    | some ml => ml.sublines
    | none => []
  | none => []

/-- Invoice whose main line has no charge total of its own: the grand
total lands on the first sub-line's total node. -/
def c2Doc : Doc :=
  ⟨some ⟨none, none, some ⟨[], none, none,
    [⟨some "1.1", some "A", none, some "10", none, none⟩,
     ⟨some "1.2", some "B", none, some "20", none, none⟩]⟩⟩, none⟩

/-- The first merge output: the grand total `30,00` has been written into
sub-line `A`'s total node. -/
def c2Out1 : Doc :=
  ⟨some ⟨none, none, some ⟨[], none, none,
    [⟨some "1.1", some "A", none, some "30,00", none, none⟩,
     ⟨some "1.2", some "B", none, some "20", none, none⟩]⟩⟩, none⟩

/-- The re-merge output: sub-line `A` now reads `50,00`. -/
def c2Out2 : Doc :=
  ⟨some ⟨none, none, some ⟨[], none, none,
    [⟨some "1.1", some "A", none, some "50,00", none, none⟩,
     ⟨some "1.2", some "B", none, some "20", none, none⟩]⟩⟩, none⟩

/-- C2, counterexample: the claim promises byte-for-byte-equivalent
sub-lines on every re-merge with the same aggregate.  When the main line
carries no charge total of its own, `main_line.find(".//Total")` resolves
to the *first sub-line's* total node, so each merge rewrites that
sub-line with the current grand total: the first merge turns `A`'s `10`
into `30,00`, the re-merge turns it into `50,00` — the sub-lines of the
two outputs differ. -/
theorem c2_counterexample :
    update_invoice c2Doc c3Agg [] = .ok c2Out1 ∧
    update_invoice c2Out1 c3Agg [] = .ok c2Out2 ∧
    sublinesOf c2Out2 ≠ sublinesOf c2Out1 := by decide

theorem hasKey_insertAssoc_mono (m : List (String × SubLine)) (k : String) (v : SubLine)
    (k2 : String) (h : hasKey m k2 = true) : hasKey (insertAssoc m k v) k2 = true := by
  unfold insertAssoc
  by_cases hm : m.any (fun p => p.1 = k) = true
  · rw [if_pos hm]
    unfold hasKey at h ⊢
    rw [List.any_map]
    rw [List.any_eq_true] at h ⊢
    obtain ⟨p, hp, hpk⟩ := h
    refine ⟨p, hp, ?_⟩
    simp only [Function.comp]
    by_cases hpk2 : p.1 = k <;> simp_all
  · rw [if_neg hm]
    unfold hasKey at h ⊢
    rw [List.any_append, h]
    rfl

theorem hasKey_insertAssoc_self (m : List (String × SubLine)) (k : String) (v : SubLine) :
    hasKey (insertAssoc m k v) k = true := by
  unfold insertAssoc
  by_cases hm : m.any (fun p => p.1 = k) = true
  · rw [if_pos hm]
    unfold hasKey
    rw [List.any_map, List.any_eq_true]
    rw [List.any_eq_true] at hm
    obtain ⟨p, hp, hpk⟩ := hm
    refine ⟨p, hp, ?_⟩
    simp only [Function.comp]
    simp_all
  · rw [if_neg hm]
    unfold hasKey
    rw [List.any_append]
    simp

theorem mem_insertAssoc (m : List (String × SubLine)) (k : String) (v : SubLine)
    (kv : String × SubLine) (h : kv ∈ insertAssoc m k v) : kv.2 = v ∨ kv ∈ m := by
  unfold insertAssoc at h
  by_cases hm : m.any (fun p => p.1 = k) = true
  · rw [if_pos hm] at h
    obtain ⟨p, hp, hpe⟩ := List.mem_map.mp h
    by_cases hpk : p.1 = k
    · rw [if_pos hpk] at hpe
      left
      rw [← hpe]
    · rw [if_neg hpk] at hpe
      right
      rw [← hpe]
      exact hp
  · rw [if_neg hm] at h
    rcases List.mem_append.mp h with h1 | h1
    · right; exact h1
    · left
      simp at h1
      rw [h1]

theorem hasKey_buildFold_mono (subs : List SubLine) : ∀ (m : List (String × SubLine))
    (k : String), hasKey m k = true → hasKey (subs.foldl buildStep m) k = true := by
  induction subs with
  | nil => intro m k h; exact h
  | cons sl t ih =>
    intro m k h
    rw [List.foldl_cons]
    apply ih
    cases hd : sl.description with
    | none => simp only [buildStep, hd]; exact h
    | some d =>
      simp only [buildStep, hd]
      by_cases hde : d ≠ ""
      · rw [if_pos hde]
        exact hasKey_insertAssoc_mono m d sl k h
      · rw [if_neg hde]
        exact h

theorem hasKey_buildFold_of_desc (subs : List SubLine) : ∀ (m : List (String × SubLine))
    (sl : SubLine) (d : String), sl ∈ subs → sl.description = some d → d ≠ "" →
    hasKey (subs.foldl buildStep m) d = true := by
  induction subs with
  | nil => intro m sl d h; cases h
  | cons sl0 t ih =>
    intro m sl d hmem hdesc hde
    rw [List.foldl_cons]
    rcases List.mem_cons.mp hmem with h1 | h1
    · subst h1
      apply hasKey_buildFold_mono
      simp only [buildStep, hdesc]
      rw [if_pos hde]
      exact hasKey_insertAssoc_self m d sl
    · exact ih _ sl d h1 hdesc hde

theorem mem_buildFold (subs : List SubLine) : ∀ (m : List (String × SubLine))
    (kv : String × SubLine), kv ∈ subs.foldl buildStep m → kv ∈ m ∨ kv.2 ∈ subs := by
  induction subs with
  | nil => intro m kv h; exact Or.inl h
  | cons sl t ih =>
    intro m kv h
    rw [List.foldl_cons] at h
    rcases ih _ kv h with h1 | h1
    · cases hd : sl.description with
      | none => simp only [buildStep, hd] at h1; exact Or.inl h1
      | some d =>
        simp only [buildStep, hd] at h1
        by_cases hde : d ≠ ""
        · rw [if_pos hde] at h1
          rcases mem_insertAssoc m d sl kv h1 with h2 | h2
          · right
            rw [h2]
            simp
          · exact Or.inl h2
        · rw [if_neg hde] at h1
          exact Or.inl h1
    · right
      simp [h1]

/-- Shape of every sub-line the rubric loop creates: a non-empty
description and rendered numeric texts. -/
def GoodLine (l : SubLine) : Prop :=
  (∃ lib, l.description = some lib ∧ lib ≠ "") ∧
  (∃ m : Dec, l.chargeTotal = some m.render) ∧
  (∃ q : Dec, l.itemQuantity.map Prod.snd = some q.render)

theorem mkNewLine_good (n : ℤ) (lib typ : String) (taux h2 montant : Dec)
    (hlib : lib ≠ "") : GoodLine (mkNewLine n lib typ taux h2 montant) := by
  refine ⟨⟨lib, rfl, hlib⟩, ⟨montant, rfl⟩, ⟨h2, rfl⟩⟩

theorem string_append_ne_empty (a b : String) (ha : a.data ≠ []) : a ++ b ≠ "" := by
  intro h
  have hd := congrArg String.data h
  rw [String.data_append] at hd
  simp at hd
  exact ha hd.1

theorem resolveRubric_label_ne (cat : Catalog) (code : String)
    (hlab : ∀ e ∈ cat, e.2.1 ≠ "") : (resolveRubric cat code).1 ≠ "" := by
  unfold resolveRubric lookupCat
  cases hf : cat.find? (fun e => e.1 = code) with
  | none => exact string_append_ne_empty "Rubrique " code (by decide)
  | some e =>
    have := List.mem_of_find?_eq_some hf
    exact hlab e this

theorem created_mono (cat : Catalog) (em : List (String × SubLine))
    (items : List (String × Dec)) : ∀ (st : LoopState) (l : SubLine),
    l ∈ st.created → l ∈ (items.foldl (rubricStep cat em) st).created := by
  induction items with
  | nil => intro st l h; exact h
  | cons it t ih =>
    intro st l h
    rw [List.foldl_cons]
    apply ih
    unfold rubricStep
    by_cases h1 : (it.1 = "" || it.2.veq Dec.zero) = true
    · rw [if_pos h1]; exact h
    · rw [if_neg h1]
      by_cases h2 : hasKey em (resolveRubric cat it.1).1 = true
      · rw [if_pos h2]; exact h
      · rw [if_neg h2]
        simp only [List.mem_append]
        exact Or.inl h

theorem created_good (cat : Catalog) (em : List (String × SubLine))
    (hlab : ∀ e ∈ cat, e.2.1 ≠ "") (items : List (String × Dec)) :
    ∀ (st : LoopState) (l : SubLine),
    l ∈ (items.foldl (rubricStep cat em) st).created → l ∈ st.created ∨ GoodLine l := by
  induction items with
  | nil => intro st l h; exact Or.inl h
  | cons it t ih =>
    intro st l h
    rw [List.foldl_cons] at h
    rcases ih _ l h with h1 | h1
    · unfold rubricStep at h1
      by_cases hg : (it.1 = "" || it.2.veq Dec.zero) = true
      · rw [if_pos hg] at h1; exact Or.inl h1
      · rw [if_neg hg] at h1
        by_cases h2 : hasKey em (resolveRubric cat it.1).1 = true
        · rw [if_pos h2] at h1; exact Or.inl h1
        · rw [if_neg h2] at h1
          simp only [List.mem_append, List.mem_singleton] at h1
          rcases h1 with h3 | h3
          · exact Or.inl h3
          · right
            rw [h3]
            exact mkNewLine_good _ _ _ _ _ _ (resolveRubric_label_ne cat it.1 hlab)
    · exact Or.inr h1

theorem created_cover (cat : Catalog) (em : List (String × SubLine))
    (items : List (String × Dec)) : ∀ (st : LoopState) (it : String × Dec),
    it ∈ items → ¬ (it.1 = "" || it.2.veq Dec.zero) = true →
    hasKey em (resolveRubric cat it.1).1 = false →
    ∃ l ∈ (items.foldl (rubricStep cat em) st).created,
      l.description = some (resolveRubric cat it.1).1 := by
  induction items with
  | nil => intro st it h; cases h
  | cons it0 t ih =>
    intro st it hmem hg hkey
    rw [List.foldl_cons]
    rcases List.mem_cons.mp hmem with h1 | h1
    · subst h1
      refine ⟨mkNewLine st.next (resolveRubric cat it.1).1 (resolveRubric cat it.1).2.2
        (resolveRubric cat it.1).2.1 it.2.quantize2
        ((it.2.quantize2.mul (resolveRubric cat it.1).2.1).quantize2), ?_, rfl⟩
      apply created_mono
      unfold rubricStep
      rw [if_neg hg, if_neg (by rw [hkey]; intro hc; cases hc)]
      simp
    · exact ih _ it h1 hg hkey

theorem rubricLoop_nil (cat : Catalog) (em : List (String × SubLine))
    (items : List (String × Dec))
    (hall : ∀ it ∈ items, ¬ (it.1 = "" || it.2.veq Dec.zero) = true →
      hasKey em (resolveRubric cat it.1).1 = true) :
    ∀ st : LoopState, items.foldl (rubricStep cat em) st = st := by
  induction items with
  | nil => intro st; rfl
  | cons it t ih =>
    intro st
    rw [List.foldl_cons]
    have hstep : rubricStep cat em st it = st := by
      unfold rubricStep
      by_cases h1 : (it.1 = "" || it.2.veq Dec.zero) = true
      · rw [if_pos h1]
      · rw [if_neg h1, if_pos (hall it (by simp) h1)]
    rw [hstep]
    exact ih (fun it2 h2 => hall it2 (by simp [h2])) st

theorem readOptNum_render (m : Dec) : readOptNum (some m.render) = .ok m := by
  simp only [readOptNum]
  rw [if_neg (render_ne_empty m), parseDec_render m]

theorem sumExisting_ok_elem (m : List (String × SubLine)) : ∀ tl : Dec × Dec,
    sumExisting m = .ok tl → ∀ kv ∈ m,
    (∃ v, readOptNum (kv.2.itemQuantity.map Prod.snd) = .ok v) ∧
    (∃ v, readOptNum kv.2.chargeTotal = .ok v) := by
  induction m with
  | nil => intro tl h kv hkv; cases hkv
  | cons p t ih =>
    intro tl h kv hkv
    unfold sumExisting at h
    cases hq : readOptNum (p.2.itemQuantity.map Prod.snd) with
    | error e => rw [hq, except_bind_error] at h; cases h
    | ok q =>
      rw [hq, except_bind_ok] at h
      cases hc : readOptNum p.2.chargeTotal with
      | error e => rw [hc, except_bind_error] at h; cases h
      | ok cq =>
        rw [hc, except_bind_ok] at h
        cases ht : sumExisting t with
        | error e => rw [ht, except_bind_error] at h; cases h
        | ok tl2 =>
          rcases List.mem_cons.mp hkv with h1 | h1
          · subst h1
            exact ⟨⟨q, hq⟩, ⟨cq, hc⟩⟩
          · exact ih tl2 ht kv h1

theorem sumExisting_ok_of_all (m : List (String × SubLine))
    (h : ∀ kv ∈ m, (∃ v, readOptNum (kv.2.itemQuantity.map Prod.snd) = .ok v) ∧
      (∃ v, readOptNum kv.2.chargeTotal = .ok v)) :
    ∃ tl, sumExisting m = .ok tl := by
  induction m with
  | nil => exact ⟨(Dec.zero2, Dec.zero2), rfl⟩
  | cons p t ih =>
    obtain ⟨⟨q, hq⟩, ⟨cq, hc⟩⟩ := h p (by simp)
    obtain ⟨tl2, ht⟩ := ih (fun kv hkv => h kv (by simp [hkv]))
    refine ⟨(q.add tl2.1, cq.add tl2.2), ?_⟩
    unfold sumExisting
    rw [hq, except_bind_ok, hc, except_bind_ok, ht, except_bind_ok]

theorem processMainLine_ok_of (agg : Agg) (cat : Catalog) (ml : MainLine)
    (tl : Dec × Dec) (hs : sumExisting (buildExistingMap ml.sublines) = .ok tl) :
    processMainLine agg cat ml =
      .ok (assembleMainLine agg ml (loopOut agg cat ml tl.1 tl.2),
           (loopOut agg cat ml tl.1 tl.2).tm) := by
  unfold processMainLine
  rw [hs]

theorem mergeBody_ok_of (agg : Agg) (cat : Catalog) (inv : Invoice) (ml : MainLine)
    (res : MainLine × Dec) (hml : inv.mainLine = some ml)
    (hp : processMainLine agg cat ml = .ok res) :
    ∃ inv2, mergeBody agg cat inv = .ok inv2 ∧ inv2.mainLine = some res.1 := by
  obtain ⟨hdr, ref, mlOpt⟩ := inv
  simp only [] at hml
  subst hml
  simp only [mergeBody, hp]
  exact ⟨_, rfl, rfl⟩

theorem update_invoice_of_body (doc : Doc) (agg : Agg) (cat : Catalog)
    (inv : Invoice) (inv2 : Invoice) (hi : firstInvoice doc = some inv)
    (hb : mergeBody agg cat inv = .ok inv2) :
    ∃ out, update_invoice doc agg cat = .ok out ∧ firstInvoice out = some inv2 := by
  rcases update_invoice_spec doc agg cat with ⟨h1, _⟩ | ⟨inv0, hi0, hrest⟩
  · rw [hi] at h1; cases h1
  · rw [hi] at hi0
    injection hi0 with he
    subst he
    rcases hrest with ⟨e, hbe, _⟩ | ⟨inv3, out, hb3, hu, hf⟩
    · rw [hb] at hbe; cases hbe
    · rw [hb] at hb3
      injection hb3 with he3
      subst he3
      exact ⟨out, hu, hf⟩

theorem loopOut_def (agg : Agg) (cat : Catalog) (ml : MainLine) (a b : Dec) :
    loopOut agg cat ml a b =
      (sortAssoc agg.qty).foldl (rubricStep cat (buildExistingMap ml.sublines))
        ⟨nextLineNumber (collectLineNumbers ml.sublines), [], a, b⟩ := rfl

/-- C2 (amended): when the main line carries a charge total of its own
(so the grand-total write does not alias a sub-line's total node) and
every catalog label is non-empty (as the rubric editor enforces),
re-running the merge on the output of a merge with the same aggregate
succeeds, creates no new sub-line, and leaves every sub-line untouched:
the sub-line list of the re-merge output equals that of the first
output byte for byte. -/
theorem c2_idempotent (doc : Doc) (agg : Agg) (cat : Catalog) (out1 : Doc)
    (hlab : ∀ e ∈ cat, e.2.1 ≠ "")
    (hown : ∀ inv ml, firstInvoice doc = some inv → inv.mainLine = some ml →
      ml.ownTotal.isSome = true)
    (h1 : update_invoice doc agg cat = .ok out1) :
    ∃ out2, update_invoice out1 agg cat = .ok out2 ∧
      sublinesOf out2 = sublinesOf out1 := by
  obtain ⟨inv, inv2, hi, hb, hf⟩ := update_invoice_ok doc agg cat out1 h1
  cases hml : inv.mainLine with
  | none =>
    have hinv2 : inv2.mainLine = none := by
      obtain ⟨hdr, ref, mlOpt⟩ := inv
      simp only [] at hml
      subst hml
      simp only [mergeBody] at hb
      cases hb
      rfl
    have hb2 : ∃ inv3, mergeBody agg cat inv2 = .ok inv3 ∧ inv3.mainLine = none := by
      obtain ⟨hdr2, ref2, ml2⟩ := inv2
      simp only [] at hinv2
      subst hinv2
      simp only [mergeBody]
      exact ⟨_, rfl, rfl⟩
    obtain ⟨inv3, hb2, hinv3⟩ := hb2
    obtain ⟨out2, hu2, hf2⟩ := update_invoice_of_body out1 agg cat inv2 inv3 hf hb2
    refine ⟨out2, hu2, ?_⟩
    simp only [sublinesOf, hf2, hinv3, hf, hinv2]
  | some ml =>
    have hownl := hown inv ml hi hml
    obtain ⟨tl, hs, hml2⟩ := mergeBody_mainline agg cat inv inv2 ml hml hb
    have hml1own := (assembleMainLine_own agg ml (loopOut agg cat ml tl.1 tl.2) hownl).1
    have hml1subs := (assembleMainLine_own agg ml (loopOut agg cat ml tl.1 tl.2) hownl).2
    have hem2 : buildExistingMap (assembleMainLine agg ml
        (loopOut agg cat ml tl.1 tl.2)).sublines =
        (loopOut agg cat ml tl.1 tl.2).created.foldl buildStep
          (buildExistingMap ml.sublines) := by
      rw [hml1subs]
      unfold buildExistingMap
      rw [List.foldl_append]
    have hgood : ∀ l ∈ (loopOut agg cat ml tl.1 tl.2).created, GoodLine l := by
      intro l hl
      rw [loopOut_def] at hl
      rcases created_good cat (buildExistingMap ml.sublines) hlab (sortAssoc agg.qty)
        ⟨nextLineNumber (collectLineNumbers ml.sublines), [], tl.1, tl.2⟩ l hl with hc | hc
      · cases hc
      · exact hc
    obtain ⟨tl2, hs2⟩ : ∃ tl2, sumExisting (buildExistingMap (assembleMainLine agg ml
        (loopOut agg cat ml tl.1 tl.2)).sublines) = .ok tl2 := by
      apply sumExisting_ok_of_all
      intro kv hkv
      rw [hem2] at hkv
      rcases mem_buildFold _ _ kv hkv with hkv1 | hkv1
      · exact sumExisting_ok_elem _ tl hs kv hkv1
      · obtain ⟨_, ⟨mC, hC⟩, ⟨qC, hQ⟩⟩ := hgood kv.2 hkv1
        exact ⟨⟨qC, by rw [hQ]; exact readOptNum_render qC⟩,
               ⟨mC, by rw [hC]; exact readOptNum_render mC⟩⟩
    have hskip : ∀ it ∈ sortAssoc agg.qty, ¬ (it.1 = "" || it.2.veq Dec.zero) = true →
        hasKey (buildExistingMap (assembleMainLine agg ml
          (loopOut agg cat ml tl.1 tl.2)).sublines) (resolveRubric cat it.1).1 = true := by
      intro it hmem hg
      rw [hem2]
      by_cases hk1 : hasKey (buildExistingMap ml.sublines) (resolveRubric cat it.1).1 = true
      · exact hasKey_buildFold_mono _ _ _ hk1
      · have hk1f : hasKey (buildExistingMap ml.sublines) (resolveRubric cat it.1).1 =
            false := by
          revert hk1
          cases hasKey (buildExistingMap ml.sublines) (resolveRubric cat it.1).1 <;> simp
        obtain ⟨l, hl, hldesc⟩ := created_cover cat (buildExistingMap ml.sublines)
          (sortAssoc agg.qty)
          ⟨nextLineNumber (collectLineNumbers ml.sublines), [], tl.1, tl.2⟩ it hmem hg hk1f
        apply hasKey_buildFold_of_desc _ _ l _ ?_ hldesc
          (resolveRubric_label_ne cat it.1 hlab)
        rw [loopOut_def]
        exact hl
    have hloop2 : loopOut agg cat (assembleMainLine agg ml (loopOut agg cat ml tl.1 tl.2))
        tl2.1 tl2.2 =
        ⟨nextLineNumber (collectLineNumbers (assembleMainLine agg ml
          (loopOut agg cat ml tl.1 tl.2)).sublines), [], tl2.1, tl2.2⟩ := by
      rw [loopOut_def]
      exact rubricLoop_nil cat _ (sortAssoc agg.qty) hskip _
    have hp2 := processMainLine_ok_of agg cat
      (assembleMainLine agg ml (loopOut agg cat ml tl.1 tl.2)) tl2 hs2
    have hml1own2 : (assembleMainLine agg ml
        (loopOut agg cat ml tl.1 tl.2)).ownTotal.isSome = true := by
      rw [hml1own]
      rfl
    have hassemble := assembleMainLine_own agg
      (assembleMainLine agg ml (loopOut agg cat ml tl.1 tl.2))
      (loopOut agg cat (assembleMainLine agg ml (loopOut agg cat ml tl.1 tl.2)) tl2.1 tl2.2)
      hml1own2
    obtain ⟨inv3, hb2, hinv3⟩ := mergeBody_ok_of agg cat inv2
      (assembleMainLine agg ml (loopOut agg cat ml tl.1 tl.2)) _ hml2 hp2
    obtain ⟨out2, hu2, hf2⟩ := update_invoice_of_body out1 agg cat inv2 inv3 hf hb2
    refine ⟨out2, hu2, ?_⟩
    have hsub2 : (assembleMainLine agg
        (assembleMainLine agg ml (loopOut agg cat ml tl.1 tl.2))
        (loopOut agg cat (assembleMainLine agg ml (loopOut agg cat ml tl.1 tl.2))
          tl2.1 tl2.2)).sublines =
        (assembleMainLine agg ml (loopOut agg cat ml tl.1 tl.2)).sublines := by
      rw [hassemble.2, hloop2]
      simp
    simp only [sublinesOf, hf2, hinv3, hf, hml2]
    exact hsub2

/-- Witness for `c2_idempotent`: re-merging the output of the concrete
`189,60` merge with the same aggregate leaves the sub-lines unchanged. -/
theorem c2_idempotent_witness :
    ∃ out2, update_invoice c9wOut c9wAgg cw = .ok out2 ∧
      sublinesOf out2 = sublinesOf c9wOut :=
  c2_idempotent c9wDoc c9wAgg cw c9wOut (by decide)
    (by
      intro inv ml hinv hml
      injection hinv with h
      subst h
      injection hml with h2
      subst h2
      rfl)
    (by decide)
